import Mathlib

/-!
Verification of the voice-soundboard core pipeline.

The TypeScript sources are shallowly embedded: JavaScript strings are
lists of characters (`JStr`), JavaScript numbers are `Nat`/`ℚ` (with an
explicit `JsNum` type where `NaN`/`Infinity` can arise), fallible code
returns `Except`/`Option`, and the regex-driven scanners are modelled by
explicit recursive matchers that follow the engine's leftmost-match,
greedy/lazy backtracking semantics for the specific patterns used.
-/

set_option maxRecDepth 10000

/-! ## JavaScript string primitives -/

/-- JavaScript strings, modelled as lists of characters. -/
abbrev JStr := List Char

/-- The JavaScript whitespace class: matches both `String.prototype.trim`
and the regex class `\s` (they coincide in JS). -/
def jsWs (c : Char) : Bool :=
  c = ' ' ∨ c = '\t' ∨ c = '\n' ∨ c.toNat = 0x0B ∨ c.toNat = 0x0C ∨ c = '\r' ∨
  c.toNat = 0xA0 ∨ c.toNat = 0x1680 ∨
  (0x2000 ≤ c.toNat ∧ c.toNat ≤ 0x200A) ∨
  c.toNat = 0x2028 ∨ c.toNat = 0x2029 ∨ c.toNat = 0x202F ∨
  c.toNat = 0x205F ∨ c.toNat = 0x3000 ∨ c.toNat = 0xFEFF

/-- `String.prototype.trim`. -/
def jsTrim (s : JStr) : JStr :=
  ((s.dropWhile jsWs).reverse.dropWhile jsWs).reverse

/-- `.replace(/\s+/g, " ")` — collapse every whitespace run to one space.
The flag tracks whether we are inside a run. -/
def collapseWsAux : Bool → JStr → JStr
  | _, [] => []
  | inRun, c :: t =>
    if jsWs c then
      if inRun then collapseWsAux true t else ' ' :: collapseWsAux true t
    else c :: collapseWsAux false t

/-- `.replace(/\s+/g, " ")`. -/
def collapseWs (s : JStr) : JStr := collapseWsAux false s

/-- Greatest index `i ≤ fromIdx` with `s[i] = ' '` — `String.lastIndexOf(" ", fromIdx)`. -/
def lastSpaceLe (s : JStr) (fromIdx : Nat) : Option Nat :=
  (List.range s.length).foldl
    (fun acc i => if i ≤ fromIdx ∧ s.getD i '\x00' = ' ' then some i else acc) none

/-- Does `needle` occur in `hay` starting at index `i`? -/
def subAt (hay needle : JStr) (i : Nat) : Bool :=
  needle.isPrefixOf (hay.drop i)

/-- `String.lastIndexOf(needle)` (no fromIndex), for nonempty needles. -/
def lastIndexOfSub (hay needle : JStr) : Option Nat :=
  (List.range (hay.length + 1)).foldl
    (fun acc i => if subAt hay needle i then some i else acc) none

/-- `String.indexOf(needle, fromIdx)`: least index `i ≥ fromIdx` where `needle` occurs. -/
def indexOfSubFrom (hay needle : JStr) (fromIdx : Nat) : Option Nat :=
  (List.range (hay.length + 1)).foldr
    (fun i acc => if fromIdx ≤ i ∧ subAt hay needle i then some i else acc) none

/-! ## Text chunker (`chunking/chunker.ts`) -/

/-- `CHUNK_LIMITS` (`chunking/limits.ts`). -/
structure ChunkLimits where
  maxChunkChars : Nat
  minChunkChars : Nat
  maxTotalChars : Nat
  maxChunks : Nat

/-- The static chunking limit table. -/
def CHUNK_LIMITS : ChunkLimits :=
  { maxChunkChars := 600, minChunkChars := 20, maxTotalChars := 12000, maxChunks := 50 }

/-- `ChunkingOptions` — per-call overrides, each optional. -/
structure ChunkingOptions where
  maxChunkChars : Option Nat := none
  minChunkChars : Option Nat := none
  maxTotalChars : Option Nat := none
  maxChunks : Option Nat := none
deriving DecidableEq, Repr

/-- A chunker warning `{code, message}`. -/
structure ChunkWarning where
  code : String
  message : String
deriving DecidableEq, Repr

/-- `ChunkResult`. -/
structure ChunkResult where
  chunks : List JStr
  wasChunked : Bool
  wasTruncated : Bool
  warnings : List ChunkWarning
deriving DecidableEq, Repr

/-- `splitByParagraphs` body: split on `/\n\s*\n/`.  A separator starts at a
`'\n'` whose following whitespace run contains another `'\n'`; the greedy
`\s*` extends the match to the last `'\n'` of that run.  `cur` holds the
current piece reversed.  The fuel dominates the iteration count (each step
consumes at least one character); callers pass the input length. -/
def splitParasAux : Nat → JStr → JStr → List JStr
  | _, cur, [] => [cur.reverse]
  | 0, cur, _ :: _ => [cur.reverse]
  | fuel + 1, cur, c :: t =>
    if c = '\n' then
      match (t.takeWhile jsWs).reverse.findIdx? (· = '\n') with
      | some revIdx =>
        -- last '\n' of the run is at run-index `run.length - 1 - revIdx`
        let run := t.takeWhile jsWs
        let lastNl := run.length - 1 - revIdx
        cur.reverse :: splitParasAux fuel [] (t.drop (lastNl + 1))
      | none => splitParasAux fuel (c :: cur) t
    else splitParasAux fuel (c :: cur) t

/-- `splitByParagraphs`: split on blank lines, trim pieces, drop empties. -/
def splitByParagraphs (text : JStr) : List JStr :=
  ((splitParasAux text.length [] text).map jsTrim).filter (· ≠ [])

/-- Splitting on `/(?<=[delims])\s+/`: a whitespace run preceded by a
delimiter separates pieces.  `prev` is the previous character consumed.
Fuel as in `splitParasAux`. -/
def splitAfterAux (delims : List Char) : Nat → Option Char → JStr → JStr → List JStr
  | _, _, cur, [] => [cur.reverse]
  | 0, _, cur, _ :: _ => [cur.reverse]
  | fuel + 1, prev, cur, c :: t =>
    if jsWs c && (match prev with | some d => delims.contains d | none => false) then
      let run := t.takeWhile jsWs
      cur.reverse ::
        splitAfterAux delims fuel (some (run.getLastD c)) [] (t.drop run.length)
    else splitAfterAux delims fuel (some c) (c :: cur) t

/-- `splitBySentences`: split after `.`, `!`, `?` followed by whitespace. -/
def splitBySentences (text : JStr) : List JStr :=
  ((splitAfterAux ['.', '!', '?'] text.length none [] text).map jsTrim).filter (· ≠ [])

/-- `splitByPunctuation`: split after `,`, `;`, `:`, em-dash followed by whitespace. -/
def splitByPunctuation (text : JStr) : List JStr :=
  ((splitAfterAux [',', ';', ':', '—'] text.length none [] text).map jsTrim).filter
    (· ≠ [])

/-- Loop body of `hardSplit`.  The fuel is an upper bound on the number of
iterations (each iteration shortens `remaining` by at least one character
when `limit ≥ 1`; the JS loop does not terminate for `limit = 0`). -/
def hardSplitAux (limit : Nat) : Nat → JStr → List JStr
  | 0, remaining => [remaining]
  | fuel + 1, remaining =>
    if limit < remaining.length then
      let splitIdx :=
        match lastSpaceLe remaining limit with
        | some i => if i = 0 then limit else i
        | none => limit
      jsTrim (remaining.take splitIdx) ::
        hardSplitAux limit fuel (jsTrim (remaining.drop splitIdx))
    else if remaining.isEmpty then [] else [remaining]

/-- `hardSplit`: hard split at the character boundary, preferring the last
space at or before the limit. -/
def hardSplit (text : JStr) (maxChars : Option Nat) : List JStr :=
  let limit := maxChars.getD CHUNK_LIMITS.maxChunkChars
  hardSplitAux limit text.length text

/-- `refineSplits`: apply `splitter` to any chunk still over the size. -/
def refineSplits (chunks : List JStr) (maxChunkChars : Nat)
    (splitter : JStr → List JStr) : List JStr :=
  (chunks.map (fun c => if c.length ≤ maxChunkChars then [c] else splitter c)).flatten

/-- Loop of `mergeTiny`: `last` is the most recently emitted chunk, which a
tiny successor may be merged into. -/
def mergeTinyGo (minChars maxChars : Nat) (last : JStr) : List JStr → List JStr
  | [] => [last]
  | cur :: rest =>
    if cur.length < minChars ∧ last.length + cur.length + 1 ≤ maxChars then
      mergeTinyGo minChars maxChars (last ++ ' ' :: cur) rest
    else last :: mergeTinyGo minChars maxChars cur rest

/-- `mergeTiny`: merge chunks shorter than `minChars` into their predecessor
unless that would exceed `maxChars`. -/
def mergeTiny (chunks : List JStr) (minChars maxChars : Nat) : List JStr :=
  match chunks with
  | [] => []
  | c :: rest => mergeTinyGo minChars maxChars c rest

/-- Maximum of a list of candidate indices where a missing index acts like
JS `-1` (`Math.max` over `lastIndexOf` results). -/
def maxOptIdx (xs : List (Option Nat)) : Option Nat :=
  xs.foldl (fun acc o =>
    match acc, o with
    | none, o => o
    | some a, none => some a
    | some a, some b => some (max a b)) none

/-- `truncateAtBoundary`: truncate near `maxChars`, preferring a sentence
boundary past the midpoint, then a word boundary, then a hard cut. -/
def truncateAtBoundary (text : JStr) (maxChars : Nat) : JStr :=
  if text.length ≤ maxChars then text
  else
    let sub := text.take maxChars
    let sentEnd := maxOptIdx
      [lastIndexOfSub sub ['.', ' '], lastIndexOfSub sub ['!', ' '],
        lastIndexOfSub sub ['?', ' ']]
    match sentEnd with
    | some i =>
      if maxChars < 2 * i then jsTrim (text.take (i + 1))
      else
        match lastIndexOfSub sub [' '] with
        | some w => if maxChars < 2 * w then jsTrim (text.take w) else jsTrim sub
        | none => jsTrim sub
    | none =>
      match lastIndexOfSub sub [' '] with
      | some w => if maxChars < 2 * w then jsTrim (text.take w) else jsTrim sub
      | none => jsTrim sub

/-- `chunkText` — the full chunking cascade. -/
def chunkText (text : JStr) (options : ChunkingOptions) : ChunkResult :=
  let maxChunkChars := options.maxChunkChars.getD CHUNK_LIMITS.maxChunkChars
  let minChunkChars := options.minChunkChars.getD CHUNK_LIMITS.minChunkChars
  let maxTotalChars := options.maxTotalChars.getD CHUNK_LIMITS.maxTotalChars
  let maxChunks := options.maxChunks.getD CHUNK_LIMITS.maxChunks
  let input0 := jsTrim text
  if input0 = [] then
    { chunks := [], wasChunked := false, wasTruncated := false, warnings := [] }
  else
    let truncated := decide (maxTotalChars < input0.length)
    let input := if truncated then truncateAtBoundary input0 maxTotalChars else input0
    let warnings0 : List ChunkWarning :=
      if truncated then
        [{ code := "TRUNCATED",
           message := "Text truncated from " ++ toString input0.length ++ " to " ++
             toString input.length ++ " characters (limit: " ++ toString maxTotalChars ++ ")" }]
      else []
    if input.length ≤ maxChunkChars then
      { chunks := [input], wasChunked := false, wasTruncated := truncated,
        warnings := warnings0 }
    else
      let raw1 := splitByParagraphs input
      let raw2 := refineSplits raw1 maxChunkChars splitBySentences
      let raw3 := refineSplits raw2 maxChunkChars splitByPunctuation
      let raw4 := refineSplits raw3 maxChunkChars (fun c => hardSplit c (some maxChunkChars))
      let raw5 := mergeTiny raw4 minChunkChars maxChunkChars
      let overCount := decide (maxChunks < raw5.length)
      let raw6 := if overCount then raw5.take maxChunks else raw5
      let wasTruncated := truncated || overCount
      let warnings1 :=
        if overCount then
          warnings0 ++
            [{ code := "TRUNCATED",
               message := "Chunk count reduced to " ++ toString maxChunks ++ " (limit)" }]
        else warnings0
      let warnings2 :=
        if 1 < raw6.length then
          warnings1 ++
            [{ code := "CHUNKED_TEXT",
               message := "Text split into " ++ toString raw6.length ++ " chunks" }]
        else warnings1
      { chunks := raw6, wasChunked := decide (1 < raw6.length),
        wasTruncated := wasTruncated, warnings := warnings2 }

/-! ## JavaScript numbers and numeric parsing -/

/-- Shorthand for string literals as `JStr`. -/
def S (s : String) : JStr := s.toList

/-- A JavaScript number as it can arise in the SSML parser: a finite
rational, an infinity, or `NaN`. -/
inductive JsNum where
  | fin (q : ℚ)
  | posInf
  | negInf
  | nan
deriving DecidableEq, Repr

/-- `Math.max` on JS numbers (`NaN` absorbs). -/
def jsMax : JsNum → JsNum → JsNum
  | .nan, _ => .nan
  | _, .nan => .nan
  | .posInf, _ => .posInf
  | _, .posInf => .posInf
  | .negInf, b => b
  | a, .negInf => a
  | .fin a, .fin b => .fin (max a b)

/-- `Math.min` on JS numbers (`NaN` absorbs). -/
def jsMin : JsNum → JsNum → JsNum
  | .nan, _ => .nan
  | _, .nan => .nan
  | .negInf, _ => .negInf
  | _, .negInf => .negInf
  | .posInf, b => b
  | a, .posInf => a
  | .fin a, .fin b => .fin (min a b)

/-- Multiplication of a JS number by a positive rational constant. -/
def JsNum.mulPos : JsNum → ℚ → JsNum
  | .fin a, q => .fin (a * q)
  | .posInf, _ => .posInf
  | .negInf, _ => .negInf
  | .nan, _ => .nan

/-- ASCII word character (regex `\w`). -/
def wordChar (c : Char) : Bool := c.isAlpha || c.isDigit || c = '_'

/-- Numeric value of a digit list. -/
def digitsToNat (ds : JStr) : Nat := ds.foldl (fun a c => a * 10 + (c.toNat - 48)) 0

/-- `parseInt(s, 10)` — `none` models `NaN`. -/
def jsParseInt (s : JStr) : Option Int :=
  let t := s.dropWhile jsWs
  let neg := t.head? = some '-'
  let t1 := if t.head? = some '-' ∨ t.head? = some '+' then t.tail else t
  let ds := t1.takeWhile Char.isDigit
  if ds.isEmpty then none
  else some (if neg then -(digitsToNat ds : Int) else (digitsToNat ds : Int))

/-- `parseFloat(s)` — `none` models `NaN`; infinities are representable. -/
def jsParseFloat (s : JStr) : Option JsNum :=
  let t := s.dropWhile jsWs
  let neg := t.head? = some '-'
  let t1 := if t.head? = some '-' ∨ t.head? = some '+' then t.tail else t
  if (S "Infinity").isPrefixOf t1 then
    some (if neg then .negInf else .posInf)
  else
    let ipart := t1.takeWhile Char.isDigit
    let r1 := t1.drop ipart.length
    let fpart := if r1.head? = some '.' then r1.tail.takeWhile Char.isDigit else []
    let r2 := if r1.head? = some '.' then r1.tail.drop fpart.length else r1
    if ipart.isEmpty ∧ fpart.isEmpty then none
    else
      let mant : ℚ :=
        (digitsToNat ipart : ℚ) + (digitsToNat fpart : ℚ) / ((10 : ℚ) ^ fpart.length)
      let expo : Int :=
        if r2.head? = some 'e' ∨ r2.head? = some 'E' then
          let e1 := r2.tail
          let eneg := e1.head? = some '-'
          let e2 := if e1.head? = some '-' ∨ e1.head? = some '+' then e1.tail else e1
          let eds := e2.takeWhile Char.isDigit
          if eds.isEmpty then 0
          else if eneg then -(digitsToNat eds : Int) else (digitsToNat eds : Int)
        else 0
      let v : ℚ := mant * (10 : ℚ) ^ expo
      some (.fin (if neg then -v else v))

/-! ## SSML-lite parser (`ssml/parser.ts`) -/

/-- `SSML_LIMITS` (`ssml/limits.ts`). -/
structure SsmlLimits where
  maxNodes : Nat
  maxBreakMs : Nat
  maxTotalChars : Nat
  minProsodyRate : ℚ
  maxProsodyRate : ℚ

/-- The static SSML limit table. -/
def SSML_LIMITS : SsmlLimits :=
  { maxNodes := 400, maxBreakMs := 2000, maxTotalChars := 12000,
    minProsodyRate := 1 / 2, maxProsodyRate := 2 }

/-- Emphasis levels. -/
inductive EmphasisLevel where
  | strong
  | moderate
  | reduced
  | none
deriving DecidableEq, Repr

/-- `SpeechEvent` (`ssml/types.ts`). -/
inductive SpeechEvent where
  | brk (timeMs : JsNum)
  | prosody (rate : ℚ)
  | prosodyEnd
  | emphasis (level : EmphasisLevel)
  | emphasisEnd
deriving DecidableEq, Repr

/-- `PlanSegment` — a text run or an event. -/
inductive PlanSegment where
  | text (value : JStr)
  | event (e : SpeechEvent)
deriving DecidableEq, Repr

/-- `SsmlWarning`. -/
structure SsmlWarning where
  code : String
  message : JStr
deriving DecidableEq, Repr

/-- `SpeechPlan`. -/
structure SpeechPlan where
  segments : List PlanSegment
  plainText : JStr
  wasSSML : Bool
  warnings : List SsmlWarning
deriving DecidableEq, Repr

/-- Open-tag stack entries (only `prosody` and `emphasis` are pushed). -/
inductive OpenTag where
  | prosody
  | emphasis
deriving DecidableEq, Repr

/-- Parser state (`ParseState` minus the immutable `body`; the remaining
input is threaded separately as a suffix). -/
structure ParseState where
  segments : List PlanSegment
  warnings : List SsmlWarning
  nodeCount : Nat
  totalChars : Nat
  openStack : List OpenTag
deriving DecidableEq, Repr

/-- Replace every occurrence of the (nonempty) needle `c0 :: ntail` by
`repl`, left to right, non-overlapping — `String.replace(needle, repl)`
with the `g` flag. -/
def replaceAllNE (c0 : Char) (ntail repl : JStr) : JStr → JStr
  | [] => []
  | c :: t =>
    if (c0 :: ntail).isPrefixOf (c :: t) then
      repl ++ replaceAllNE c0 ntail repl (t.drop ntail.length)
    else c :: replaceAllNE c0 ntail repl t
termination_by s => s.length
decreasing_by
  · simp only [List.length_drop, List.length_cons]
    omega
  · simp

/-- `decodeEntities` — the five sequential global replaces. -/
def decodeEntities (text : JStr) : JStr :=
  replaceAllNE '&' (S "apos;") (S "'")
    (replaceAllNE '&' (S "quot;") (S "\"")
      (replaceAllNE '&' (S "gt;") (S ">")
        (replaceAllNE '&' (S "lt;") (S "<")
          (replaceAllNE '&' (S "amp;") (S "&") text))))

/-- Case-insensitive (ASCII) prefix test against a lowercase needle. -/
def ciPrefixLower (needle s : JStr) : Bool :=
  (s.take needle.length).map Char.toLower = needle

/-- `parseAttr` match attempt at the current position: lowercase `name`,
then `\s*=\s*` and a quoted value. -/
def parseAttrAt (name s : JStr) : Option JStr :=
  if ciPrefixLower name s then
    let r1 := (s.drop name.length).dropWhile jsWs
    match r1 with
    | '=' :: r2 =>
      let r3 := r2.dropWhile jsWs
      match r3 with
      | '"' :: r4 => if r4.contains '"' then some (r4.takeWhile (· ≠ '"')) else none
      | '\'' :: r4 => if r4.contains '\'' then some (r4.takeWhile (· ≠ '\'')) else none
      | _ => none
    | _ => none
  else none

/-- `parseAttr` — leftmost case-insensitive match of
`name\s*=\s*("..."|'...')` in the attribute string. -/
def parseAttr (attrsStr name : JStr) : Option JStr :=
  match attrsStr with
  | [] => none
  | c :: t =>
    match parseAttrAt name (c :: t) with
    | some v => some v
    | none => parseAttr t name

/-- `strengthToMs` — the `strength` keyword table. -/
def strengthToMs (strength : JStr) : ℚ :=
  let l := strength.map Char.toLower
  if l = S "none" then 0
  else if l = S "x-weak" then 100
  else if l = S "weak" then 200
  else if l = S "medium" then 400
  else if l = S "strong" then 750
  else if l = S "x-strong" then 1000
  else 250

/-- `parseDurationMs` — `"250ms"`, `"1.5s"`, or a bare number. -/
def parseDurationMs (value : JStr) : JsNum :=
  let trimmed := (jsTrim value).map Char.toLower
  if (S "ms").isSuffixOf trimmed then
    match jsParseInt trimmed with
    | some n => jsMax (.fin 0) (.fin (n : ℚ))
    | none => .nan
  else if (S "s").isSuffixOf trimmed then
    match jsParseFloat trimmed with
    | some v => jsMax (.fin 0) (v.mulPos 1000)
    | none => .nan
  else
    match jsParseInt trimmed with
    | some n => jsMax (.fin 0) (.fin (n : ℚ))
    | none => .fin 250

/-- `parseBreakTime`, `strength` branch. -/
def parseBreakStrength (attrsStr : JStr) : JsNum :=
  match parseAttr attrsStr (S "strength") with
  | some sv => if sv.isEmpty then .fin 250 else .fin (strengthToMs sv)
  | none => .fin 250

/-- `parseBreakTime` — `time` attribute (clamped to the max) or `strength`
keyword, default 250 ms. -/
def parseBreakTime (attrsStr : JStr) : JsNum :=
  match parseAttr attrsStr (S "time") with
  | some tv =>
    if tv.isEmpty then parseBreakStrength attrsStr
    else jsMin (parseDurationMs tv) (.fin (SSML_LIMITS.maxBreakMs : ℚ))
  | none => parseBreakStrength attrsStr

/-- `clampRate` on a finite value. -/
def clampRate (rate : ℚ) : ℚ :=
  max SSML_LIMITS.minProsodyRate (min SSML_LIMITS.maxProsodyRate rate)

/-- `parseProsodyRate` — numeric or named rate, clamped; `none` = no event. -/
def parseProsodyRate (attrsStr : JStr) : Option ℚ :=
  match parseAttr attrsStr (S "rate") with
  | none => none
  | some r =>
    if r.isEmpty then none
    else
      match jsParseFloat r with
      | some (.fin x) => some (clampRate x)
      | some .posInf => some (clampRate 1000000)
      | some .negInf => some (clampRate (-1000000))
      | some .nan => none
      | none =>
        let l := r.map Char.toLower
        if l = S "x-slow" then some (clampRate (1 / 2))
        else if l = S "slow" then some (clampRate (3 / 4))
        else if l = S "medium" then some 1
        else if l = S "fast" then some (clampRate (5 / 4))
        else if l = S "x-fast" then some (clampRate (3 / 2))
        else none

/-- `parseEmphasisLevel` — level enum, default `moderate`. -/
def parseEmphasisLevel (attrsStr : JStr) : EmphasisLevel :=
  match parseAttr attrsStr (S "level") with
  | none => .moderate
  | some lv =>
    if lv.isEmpty then .moderate
    else
      let l := lv.map Char.toLower
      if l = S "strong" then .strong
      else if l = S "moderate" then .moderate
      else if l = S "reduced" then .reduced
      else if l = S "none" then .none
      else .moderate

/-- A tag token produced by `TAG_RE`: the optional closing slash (group 1),
the lowercased name (group 2), the raw attribute text (group 3), and the
optional self-closing slash (group 4). -/
structure TagTok where
  closing : Bool
  name : JStr
  attrs : JStr
  selfClosing : Bool
deriving DecidableEq, Repr

/-- Attempt to match `TAG_RE` immediately after a `'<'`; `t` is the input
after the `'<'`.  On success returns the token and the number of
characters of `t` consumed (so the match spans `1 + consumed` characters).
Follows the engine exactly: optional `/`, greedy `\w[\w-]*` name, then
either an immediate `>`, a self-closing `/\s*>`, or a whitespace-led
attribute block ending at the first `>`(with the lazy `[^>]*?` giving the
shortest attribute capture and the slash/whitespace tail re-parsed). -/
def tagMatchAfterLt (t : JStr) : Option (TagTok × Nat) :=
  let slash := t.head? = some '/'
  let t1 := if slash then t.tail else t
  let o1 := if slash then 1 else 0
  match t1 with
  | [] => none
  | c :: rest =>
    if wordChar c then
      let nameRest := rest.takeWhile (fun d => wordChar d || d = '-')
      let name := (c :: nameRest).map Char.toLower
      let k := o1 + 1 + nameRest.length
      let after := rest.drop nameRest.length
      match after with
      | '>' :: _ =>
        some ({ closing := slash, name := name, attrs := [], selfClosing := false }, k + 1)
      | '/' :: a2 =>
        let ws := a2.takeWhile jsWs
        match a2.drop ws.length with
        | '>' :: _ =>
          some ({ closing := slash, name := name, attrs := [], selfClosing := true },
            k + 1 + ws.length + 1)
        | _ => none
      | c2 :: _ =>
        if jsWs c2 then
          match after.findIdx? (· = '>') with
          | some m =>
            let content := after.take m
            let w := content.takeWhile jsWs
            let cr := content.drop w.length
            let r := (cr.reverse.takeWhile jsWs).length
            let core := cr.take (cr.length - r)
            if core.getLast? = some '/' then
              some (⟨slash, name, w ++ core.dropLast, true⟩, k + m + 1)
            else
              some (⟨slash, name, w ++ core, false⟩, k + m + 1)
          | none => none
        else none
      | [] => none
    else none

/-- Scan for the leftmost `TAG_RE` match.  Returns the text before the
match, the token, and the suffix after the match. -/
def findTag : JStr → Option (JStr × TagTok × JStr)
  | [] => none
  | c :: t =>
    if c = '<' then
      match tagMatchAfterLt t with
      | some (tok, consumed) => some ([], tok, t.drop consumed)
      | none =>
        match findTag t with
        | some (pre, tok, rest) => some (c :: pre, tok, rest)
        | none => none
    else
      match findTag t with
      | some (pre, tok, rest) => some (c :: pre, tok, rest)
      | none => none

/-- The allow-listed tag names. -/
def ALLOWED_TAGS : List JStr :=
  [S "speak", S "break", S "prosody", S "emphasis", S "sub", S "say-as"]

/-- `addText` on the segment list: merge into a trailing text segment or
append a new one. -/
def addTextSegs (segs : List PlanSegment) (text : JStr) : List PlanSegment :=
  match segs.getLast? with
  | some (.text v) => segs.dropLast ++ [.text (v ++ text)]
  | _ => segs ++ [.text text]

/-- `addText` — decode entities, drop whitespace-only runs, enforce the
total-character cap, then merge/append. -/
def addText (st : ParseState) (raw : JStr) : Except JStr ParseState :=
  let text := decodeEntities raw
  if jsTrim text = [] then .ok st
  else
    let total := st.totalChars + text.length
    if SSML_LIMITS.maxTotalChars < total then
      .error (S ("SSML text content exceeds " ++ toString SSML_LIMITS.maxTotalChars ++
        " characters"))
    else
      .ok { st with totalChars := total, segments := addTextSegs st.segments text }

/-- `pushEvent`. -/
def pushEvent (st : ParseState) (e : SpeechEvent) : ParseState :=
  { st with segments := st.segments ++ [.event e] }

/-- Remove the last occurrence of `x` (`lastIndexOf` + `splice(idx, 1)`). -/
def removeLastOcc (l : List OpenTag) (x : OpenTag) : List OpenTag :=
  (l.reverse.erase x).reverse

/-- `handleClosingTag` — pop the matching open tag (if any) and emit the
end event. -/
def handleClosingTag (st : ParseState) (tagName : JStr) : ParseState :=
  if tagName = S "prosody" then
    if st.openStack.contains .prosody then
      pushEvent { st with openStack := removeLastOcc st.openStack .prosody } .prosodyEnd
    else st
  else if tagName = S "emphasis" then
    if st.openStack.contains .emphasis then
      pushEvent { st with openStack := removeLastOcc st.openStack .emphasis } .emphasisEnd
    else st
  else st

/-- `handleSelfClosingTag` — only `break` does anything. -/
def handleSelfClosingTag (st : ParseState) (tagName attrsStr : JStr) : ParseState :=
  if tagName = S "break" then pushEvent st (.brk (parseBreakTime attrsStr)) else st

/-- `findCloseTagEnd` for `</sub>`: first case-insensitive occurrence in
the current suffix; returns the index just past the closing tag. -/
def findSubCloseEnd (rest : JStr) : Option Nat :=
  match indexOfSubFrom (rest.map Char.toLower) (S "</sub>") 0 with
  | some idx => some (idx + 6)
  | none => none

/-- `handleOpeningTag`.  Returns the updated state and, for a successful
`<sub alias=...>` substitution, the new remaining suffix (the input after
the matching close tag). -/
def handleOpeningTag (st : ParseState) (tagName attrsStr : JStr) (rest : JStr) :
    Except JStr (ParseState × Option JStr) :=
  if tagName = S "break" then
    .ok (pushEvent st (.brk (parseBreakTime attrsStr)), none)
  else if tagName = S "prosody" then
    match parseProsodyRate attrsStr with
    | some rate =>
      .ok ({ pushEvent st (.prosody rate) with
        openStack := (pushEvent st (.prosody rate)).openStack ++ [.prosody] }, none)
    | none => .ok (st, none)
  else if tagName = S "emphasis" then
    let st1 := pushEvent st (.emphasis (parseEmphasisLevel attrsStr))
    .ok ({ st1 with openStack := st1.openStack ++ [.emphasis] }, none)
  else if tagName = S "sub" then
    match parseAttr attrsStr (S "alias") with
    | some aliasv =>
      if aliasv.isEmpty then .ok (st, none)
      else
        match findSubCloseEnd rest with
        | some closeEnd =>
          match addText st aliasv with
          | .ok st1 => .ok (st1, some (rest.drop closeEnd))
          | .error e => .error e
        | none => .ok (st, none)
    | none => .ok (st, none)
  else .ok (st, none)

/-- One warning record for a stripped tag. -/
def strippedWarning (tagName : JStr) : SsmlWarning :=
  { code := "SSML_TAG_STRIPPED", message := S "Unsupported tag <" ++ tagName ++ S "> stripped" }

/-- The main `doParse` scan loop.  `fuel` dominates the number of
iterations: every iteration consumes at least one character of `rest`
(the JS loop advances `re.lastIndex` past each match), so
`fuel = rest.length + 1` never runs out. -/
def ssmlLoop : Nat → JStr → ParseState → Except JStr ParseState
  | 0, _, _ => .error (S "out of fuel")
  | fuel + 1, rest, st =>
    match findTag rest with
    | none => if rest.isEmpty then .ok st else addText st rest
    | some (pre, tok, rest') =>
      match (if pre.isEmpty then .ok st else addText st pre :
          Except JStr ParseState) with
      | .error e => .error e
      | .ok st1 =>
        let st2 := { st1 with nodeCount := st1.nodeCount + 1 }
        if SSML_LIMITS.maxNodes < st2.nodeCount then
          .error (S ("Too many SSML nodes (max " ++ toString SSML_LIMITS.maxNodes ++ ")"))
        else if ¬ (ALLOWED_TAGS.contains tok.name) then
          ssmlLoop fuel rest'
            { st2 with warnings := st2.warnings ++ [strippedWarning tok.name] }
        else if tok.name = S "speak" then
          ssmlLoop fuel rest' st2
        else if tok.closing then
          ssmlLoop fuel rest' (handleClosingTag st2 tok.name)
        else if tok.selfClosing then
          ssmlLoop fuel rest' (handleSelfClosingTag st2 tok.name tok.attrs)
        else
          match handleOpeningTag st2 tok.name tok.attrs rest' with
          | .error e => .error e
          | .ok (st3, some newRest) => ssmlLoop fuel newRest st3
          | .ok (st3, none) => ssmlLoop fuel rest' st3

/-- Name of an open-tag entry, for the auto-close warning. -/
def openTagName : OpenTag → JStr
  | .prosody => S "prosody"
  | .emphasis => S "emphasis"

/-- End event emitted when auto-closing an unclosed tag. -/
def openTagEnd : OpenTag → SpeechEvent
  | .prosody => .prosodyEnd
  | .emphasis => .emphasisEnd

/-- Auto-close pass over the reversed open stack (`pop` order). -/
def autoCloseAux : List OpenTag → ParseState → ParseState
  | [], st => st
  | tag :: restTags, st =>
    autoCloseAux restTags
      { pushEvent st (openTagEnd tag) with
        warnings := (pushEvent st (openTagEnd tag)).warnings ++
          [{ code := "SSML_UNCLOSED_TAG",
             message := S "Unclosed <" ++ openTagName tag ++ S "> auto-closed" }] }

/-- The auto-close loop at the end of `doParse`. -/
def autoClose (st : ParseState) : ParseState :=
  { autoCloseAux st.openStack.reverse st with openStack := [] }

/-- `extractPlainText` — text segment values joined by a space, whitespace
collapsed, trimmed. -/
def extractPlainText (segs : List PlanSegment) : JStr :=
  jsTrim (collapseWs (List.intercalate [' ']
    (segs.filterMap (fun s => match s with | .text v => some v | .event _ => none))))

/-- Strip an optional `<speak ...>...</speak>` wrapper
(`/^\s*<speak\b[^>]*>([\s\S]*)<\/speak>\s*$/i`). -/
def stripSpeakWrapper (input : JStr) : JStr :=
  let afterWs := input.dropWhile jsWs
  if ciPrefixLower (S "<speak") afterWs then
    let rest0 := afterWs.drop 6
    if (match rest0.head? with | some c => wordChar c | none => true) then input
    else
      match rest0.findIdx? (· = '>') with
      | none => input
      | some g =>
        let body0 := rest0.drop (g + 1)
        let trail := (body0.reverse.takeWhile jsWs).length
        let core := body0.take (body0.length - trail)
        if 8 ≤ core.length ∧
            (core.drop (core.length - 8)).map Char.toLower = S "</speak>" then
          core.take (core.length - 8)
        else input
  else input

/-- The initial parser state. -/
def initParseState : ParseState :=
  { segments := [], warnings := [], nodeCount := 0, totalChars := 0, openStack := [] }

/-- `doParse` — strip the root wrapper, run the scan loop, auto-close, and
assemble the plan; internal cap violations surface as `.error`. -/
def doParse (input : JStr) : Except JStr SpeechPlan :=
  let body := stripSpeakWrapper input
  match ssmlLoop (body.length + 1) body initParseState with
  | .error e => .error e
  | .ok st =>
    let st2 := autoClose st
    .ok { segments := st2.segments, plainText := extractPlainText st2.segments,
          wasSSML := true, warnings := st2.warnings }

/-- Keyword test after a `'<'` for `looksLikeSsml`: optional whitespace,
then an allow-listed name at a word boundary (case-insensitive). -/
def ssmlKeywordAt (t : JStr) : Bool :=
  let r := t.dropWhile jsWs
  ALLOWED_TAGS.any (fun w =>
    ciPrefixLower w r &&
      (match (r.drop w.length).head? with | some c => !(wordChar c) | none => true))

/-- `looksLikeSsml` — `/<\s*(speak|break|prosody|emphasis|sub|say-as)\b/i`. -/
def looksLikeSsml : JStr → Bool
  | [] => false
  | c :: t => (c = '<' && ssmlKeywordAt t) || looksLikeSsml t

/-- Remove `/<[^>]*>/g` matches: at each `'<'` with a later `'>'`, drop
through the first such `'>'`. -/
def stripTagsRe : JStr → JStr
  | [] => []
  | c :: t =>
    if c = '<' then
      match t.findIdx? (· = '>') with
      | some i => stripTagsRe (t.drop (i + 1))
      | none => c :: stripTagsRe t
    else c :: stripTagsRe t
termination_by s => s.length
decreasing_by
  · simp only [List.length_drop, List.length_cons]
    omega
  · simp
  · simp

/-- `stripAllTags` — remove tags, decode entities, collapse, trim. -/
def stripAllTags (input : JStr) : JStr :=
  jsTrim (collapseWs (decodeEntities (stripTagsRe input)))

/-- `plainTextPlan` — wrap trimmed non-SSML input. -/
def plainTextPlan (text : JStr) : SpeechPlan :=
  if text.isEmpty then
    { segments := [], plainText := [], wasSSML := false, warnings := [] }
  else
    { segments := [.text text], plainText := text, wasSSML := false, warnings := [] }

/-- `plainTextFallback` — wholesale tag strip plus the single
`SSML_PARSE_FAILED` warning. -/
def plainTextFallback (input errorMessage : JStr) : SpeechPlan :=
  let stripped := stripAllTags input
  { segments := if stripped.isEmpty then [] else [.text stripped],
    plainText := stripped,
    wasSSML := true,
    warnings :=
      [⟨"SSML_PARSE_FAILED",
        S "SSML parse failed, using plain text fallback: " ++ errorMessage⟩] }

/-- `parseSsmlLite` — the public, total entry point. -/
def parseSsmlLite (input : JStr) : SpeechPlan :=
  let trimmed := jsTrim input
  if ¬ looksLikeSsml trimmed then plainTextPlan trimmed
  else
    match doParse trimmed with
    | .ok plan => plan
    | .error e => plainTextFallback trimmed e

/-! ## SFX tag parser (`presets.ts` / `sfx`) -/

/-- The fixed SFX tag registry keys (`SFX_TAGS`). -/
def SFX_TAGS : List JStr :=
  [S "ding", S "chime", S "whoosh", S "click", S "pop", S "tada"]

/-- `SFX_MAX_EVENTS` (`sfx/registry.ts`). -/
def SFX_MAX_EVENTS : Nat := 30

/-- `SfxSegment` — an SFX event (known tag) or literal text. -/
inductive SfxSegment where
  | sfx (tag : JStr)
  | text (value : JStr)
deriving DecidableEq, Repr

/-- `SfxWarning`. -/
structure SfxWarning where
  code : String
  message : JStr
deriving DecidableEq, Repr

/-- `SfxParseResult`. -/
structure SfxParseResult where
  segments : List SfxSegment
  warnings : List SfxWarning
  sfxCount : Nat
deriving DecidableEq, Repr

/-- Leftmost match of `/\[(\w+)\]/`: returns the text before the match,
the raw captured tag name, and the suffix after the match. -/
def sfxFind : JStr → Option (JStr × JStr × JStr)
  | [] => none
  | c :: t =>
    if c = '[' then
      let w := t.takeWhile wordChar
      if ¬ w.isEmpty ∧ (t.drop w.length).head? = some ']' then
        some ([], w, t.drop (w.length + 1))
      else
        match sfxFind t with
        | some (pre, w', rest) => some (c :: pre, w', rest)
        | none => none
    else
      match sfxFind t with
      | some (pre, w', rest) => some (c :: pre, w', rest)
      | none => none

/-- Mid-loop state of `parseSfxTags`. -/
structure SfxState where
  segments : List SfxSegment
  warnings : List SfxWarning
  sfxCount : Nat
  maxReached : Bool
deriving DecidableEq, Repr

/-- Process one matched tag (the body of the `matchAll` loop after the
leading-text emission).  `w` is the raw captured name. -/
def sfxHandleTag (st : SfxState) (w : JStr) : SfxState :=
  let tagName := w.map Char.toLower
  let matched : JStr := '[' :: w ++ [']']
  if ¬ (SFX_TAGS.contains tagName) then
    { st with
      warnings := st.warnings ++
        [⟨"SFX_UNKNOWN_TAG", S "Unknown SFX tag [" ++ tagName ++ S "], left as literal text"⟩],
      segments := st.segments ++ [.text matched] }
  else if st.maxReached then
    { st with segments := st.segments ++ [.text matched] }
  else if st.sfxCount + 1 > SFX_MAX_EVENTS then
    { st with
      maxReached := true,
      warnings := st.warnings ++
        [⟨"SFX_MAX_EVENTS",
          S ("Exceeded max SFX events (" ++ toString SFX_MAX_EVENTS ++
            "); remaining tags left as literal text")⟩],
      segments := st.segments ++ [.text matched] }
  else
    { st with sfxCount := st.sfxCount + 1, segments := st.segments ++ [.sfx tagName] }

/-- The `matchAll` loop of `parseSfxTags` (enabled path).  Fuel dominates
the iteration count; every match consumes at least three characters. -/
def sfxLoop : Nat → JStr → SfxState → SfxState
  | 0, _, st => st
  | fuel + 1, rest, st =>
    match sfxFind rest with
    | none =>
      if (jsTrim rest).isEmpty then st
      else { st with segments := st.segments ++ [.text (jsTrim rest)] }
    | some (pre, w, rest') =>
      let st1 :=
        if (jsTrim pre).isEmpty then st
        else { st with segments := st.segments ++ [.text (jsTrim pre)] }
      sfxLoop fuel rest' (sfxHandleTag st1 w)

/-- Does the text contain any `[word]` pattern (`SFX_TAG_RE.test`)? -/
def hasSfxTags (text : JStr) : Bool := (sfxFind text).isSome

/-- `parseSfxTags`. -/
def parseSfxTags (text : JStr) (enabled : Bool) : SfxParseResult :=
  if ¬ enabled then
    { segments := [.text text],
      warnings :=
        if hasSfxTags text then
          [⟨"SFX_DISABLED",
            S "SFX tags detected but SFX feature is disabled; tags left as literal text"⟩]
        else [],
      sfxCount := 0 }
  else
    let st := sfxLoop (text.length + 1) text ⟨[], [], 0, false⟩
    let segments :=
      if st.segments.isEmpty ∧ ¬ (jsTrim text).isEmpty then [.text (jsTrim text)]
      else st.segments
    { segments := segments, warnings := st.warnings, sfxCount := st.sfxCount }

/-! ## Emotion span parser (`emotion`) -/

/-- `EMOTION_SPEED_MIN` / `EMOTION_SPEED_MAX` and the clamp. -/
def EMOTION_SPEED_MIN : ℚ := 17 / 20

/-- `EMOTION_SPEED_MAX`. -/
def EMOTION_SPEED_MAX : ℚ := 23 / 20

/-- `clampEmotionSpeed`. -/
def clampEmotionSpeed (speed : ℚ) : ℚ :=
  max EMOTION_SPEED_MIN (min EMOTION_SPEED_MAX speed)

/-- An `EMOTION_MAP` entry. -/
structure EmotionMapEntry where
  preset : Option String
  voiceId : JStr
  speed : ℚ
deriving DecidableEq, Repr

/-- The emotion names (keys of `EMOTION_MAP`). -/
def EMOTION_NAMES : List JStr :=
  [S "neutral", S "serious", S "friendly", S "professional",
   S "calm", S "joy", S "urgent", S "whisper"]

/-- `EMOTION_MAP` — looked up only at valid emotion names (the parser
guards with `EMOTION_NAMES`); the catch-all arm returns the `neutral`
entry. -/
def emotionEntry (emotion : JStr) : EmotionMapEntry :=
  if emotion = S "serious" then ⟨some "narrator", S "bm_george", 1⟩
  else if emotion = S "friendly" then ⟨none, S "am_liam", 1⟩
  else if emotion = S "professional" then ⟨none, S "af_jessica", 1⟩
  else if emotion = S "calm" then ⟨some "narrator", S "bm_george", 19 / 20⟩
  else if emotion = S "joy" then ⟨none, S "am_eric", 103 / 100⟩
  else if emotion = S "urgent" then ⟨some "announcer", S "am_fenrir", 27 / 25⟩
  else if emotion = S "whisper" then ⟨some "storyteller", S "am_onyx", 23 / 25⟩
  else ⟨some "default", S "bm_george", 1⟩

/-- `EmotionSpan`. -/
structure EmotionSpan where
  emotion : JStr
  text : JStr
  voiceId : JStr
  speed : ℚ
deriving DecidableEq, Repr

/-- `EmotionWarning`. -/
structure EmotionWarning where
  code : String
  message : JStr
deriving DecidableEq, Repr

/-- `EmotionParseResult`. -/
structure EmotionParseResult where
  spans : List EmotionSpan
  warnings : List EmotionWarning
deriving DecidableEq, Repr

/-- Leftmost occurrence of the close pattern `\{\/(\w+)\}` (the lazy inner
group stops at the first such occurrence).  Returns the text before it,
the close name, and the suffix after it. -/
def emoFindClose : JStr → Option (JStr × JStr × JStr)
  | [] => none
  | c :: t =>
    if c = '{' ∧ t.head? = some '/' then
      let w := t.tail.takeWhile wordChar
      if ¬ w.isEmpty ∧ (t.tail.drop w.length).head? = some '}' then
        some ([], w, t.tail.drop (w.length + 1))
      else
        match emoFindClose t with
        | some (pre, w', rest) => some (c :: pre, w', rest)
        | none => none
    else
      match emoFindClose t with
      | some (pre, w', rest) => some (c :: pre, w', rest)
      | none => none

/-- Leftmost match of `EMOTION_SPAN_RE`
(`/\{(\w+)\}([\s\S]*?)\{\/(\w+)\}/`): text before the match, open name,
inner text, close name, and the suffix after the match. -/
def emoFind : JStr → Option (JStr × JStr × JStr × JStr × JStr)
  | [] => none
  | c :: t =>
    if c = '{' && (match t.head? with | some d => wordChar d | none => false) then
      let w := t.takeWhile wordChar
      if (t.drop w.length).head? = some '}' then
        match emoFindClose (t.drop (w.length + 1)) with
        | some (inner, w2, rest) => some ([], w, inner, w2, rest)
        | none =>
          match emoFind t with
          | some (pre, a, b, d, rest) => some (c :: pre, a, b, d, rest)
          | none => none
      else
        match emoFind t with
        | some (pre, a, b, d, rest) => some (c :: pre, a, b, d, rest)
        | none => none
    else
      match emoFind t with
      | some (pre, a, b, d, rest) => some (c :: pre, a, b, d, rest)
      | none => none

/-- `pushNeutralSpan`. -/
def pushNeutralSpan (spans : List EmotionSpan) (text : JStr) : List EmotionSpan :=
  spans ++ [⟨S "neutral", text, S "bm_george", clampEmotionSpeed 1⟩]

/-- The `matchAll` loop of `parseEmotionSpans`; fuel dominates the
iteration count. -/
def emoLoop : Nat → JStr → List EmotionSpan → List EmotionWarning →
    List EmotionSpan × List EmotionWarning
  | 0, _, spans, warnings => (spans, warnings)
  | fuel + 1, rest, spans, warnings =>
    match emoFind rest with
    | none =>
      let tail := jsTrim rest
      if tail.isEmpty then (spans, warnings) else (pushNeutralSpan spans tail, warnings)
    | some (pre, openName, innerText, closeName, rest') =>
      let spans1 :=
        if (jsTrim pre).isEmpty then spans else pushNeutralSpan spans (jsTrim pre)
      if openName ≠ closeName then
        let matched := '{' :: openName ++ '}' :: innerText ++ '{' :: '/' :: closeName ++ ['}']
        emoLoop fuel rest' (pushNeutralSpan spans1 matched)
          (warnings ++
            [⟨"EMOTION_MISMATCH",
              S "Mismatched tags: \x7b" ++ openName ++ S "\x7d closed by \x7b/" ++
                closeName ++ S "\x7d"⟩])
      else
        let trimmed := jsTrim innerText
        if trimmed.isEmpty then emoLoop fuel rest' spans1 warnings
        else if EMOTION_NAMES.contains openName then
          let entry := emotionEntry openName
          emoLoop fuel rest'
            (spans1 ++ [⟨openName, trimmed, entry.voiceId, clampEmotionSpeed entry.speed⟩])
            warnings
        else
          let entry := emotionEntry (S "neutral")
          emoLoop fuel rest'
            (spans1 ++ [⟨S "neutral", trimmed, entry.voiceId, clampEmotionSpeed entry.speed⟩])
            (warnings ++
              [⟨"EMOTION_UNSUPPORTED",
                S "Unknown emotion \"" ++ openName ++ S "\", falling back to neutral"⟩])

/-- `parseEmotionSpans`. -/
def parseEmotionSpans (text : JStr) : EmotionParseResult :=
  match emoFind text with
  | none =>
    -- no match at all: `lastIndex` stays 0 and the loop body never runs;
    -- the tail emission and the no-span edge case coincide here
    if (jsTrim text).isEmpty then { spans := [], warnings := [] }
    else { spans := pushNeutralSpan [] (jsTrim text), warnings := [] }
  | some _ =>
    let (spans, warnings) := emoLoop (text.length + 1) text [] []
    { spans := spans, warnings := warnings }

/-! ## Synthesis orchestrator (`runPlan`, `runEmotionPlan`) -/

/-- `ChunkArtifact` — per-chunk audio result. -/
structure ChunkArtifact where
  audioPath : Option JStr := none
  audioBytesBase64 : Option JStr := none
  durationMs : ℚ
  sampleRate : Nat
  format : JStr
deriving DecidableEq, Repr

/-- Orchestrator warnings (`{code, message}`); upstream SSML/chunker/
emotion warnings are converted to this shared shape when threaded. -/
structure OrchWarning where
  code : String
  message : JStr
deriving DecidableEq, Repr

/-- Artifact delivery mode. -/
inductive ArtifactMode where
  | path
  | base64
deriving DecidableEq, Repr

/-- `RunPlanOptions`.  The cancellation signal is modelled as the sequence
of values returned by successive polls of `signal.aborted`
(`none` = no signal attached). -/
structure RunPlanOptions where
  concat : Bool := false
  artifactMode : ArtifactMode := .path
  outputDir : Option JStr := none
  signal : Option (Nat → Bool) := none

/-- One poll of `options.signal?.aborted` at poll index `k`. -/
def pollAborted (options : RunPlanOptions) (k : Nat) : Bool :=
  match options.signal with
  | some f => f k
  | none => false

/-- `SpeechResult`. -/
structure SpeechResult where
  chunks : List ChunkArtifact
  concatPath : Option JStr := none
  concatBase64 : Option JStr := none
  totalDurationMs : ℚ
  chunkCount : Nat
  interrupted : Bool
  warnings : List OrchWarning

/-- Lift a chunker warning. -/
def liftChunkWarning (w : ChunkWarning) : OrchWarning := ⟨w.code, S w.message⟩

/-- Lift an SSML warning. -/
def liftSsmlWarning (w : SsmlWarning) : OrchWarning := ⟨w.code, w.message⟩

/-- Lift an emotion warning. -/
def liftEmotionWarning (w : EmotionWarning) : OrchWarning := ⟨w.code, w.message⟩

/-- The sequential chunk-synthesis loop of `runPlan`: poll the signal
before each chunk (in `runPlan` the i-th poll happens at loop index `i`),
stop with `SYNTHESIS_INTERRUPTED` on abort.  Returns artifacts, the
interrupted flag, and the loop-added warnings. -/
def runPlanChunksLoop (synthesize : JStr → Nat → ChunkArtifact)
    (options : RunPlanOptions) (total : Nat) (i : Nat) :
    List JStr → List ChunkArtifact × Bool × List OrchWarning
  | [] => ([], false, [])
  | chunk :: rest =>
    if pollAborted options i then
      ([], true,
        [⟨"SYNTHESIS_INTERRUPTED",
          S ("Synthesis interrupted after " ++ toString i ++ " of " ++ toString total ++
            " chunks")⟩])
    else
      let artifact := synthesize chunk i
      let (arts, intr, ws) := runPlanChunksLoop synthesize options total (i + 1) rest
      (artifact :: arts, intr, ws)

/-- `runPlan` — chunk the plan's plain text, synthesize sequentially, and
optionally concatenate.  `concatB64`/`concatFiles` are the injected WAV
concatenation collaborators (`Except` models their throw). -/
def runPlan (plan : SpeechPlan) (synthesize : JStr → Nat → ChunkArtifact)
    (options : RunPlanOptions) (chunkingOptions : ChunkingOptions)
    (concatB64 : List ChunkArtifact → Except JStr (JStr × ℚ))
    (concatFiles : List ChunkArtifact → JStr → Except JStr (JStr × ℚ)) : SpeechResult :=
  let warnings0 := plan.warnings.map liftSsmlWarning
  let text := plan.plainText
  if text.isEmpty then
    { chunks := [], totalDurationMs := 0, chunkCount := 0, interrupted := false,
      warnings := warnings0 }
  else
    let chunkResult := chunkText text chunkingOptions
    let warnings1 := warnings0 ++ chunkResult.warnings.map liftChunkWarning
    if chunkResult.chunks.isEmpty then
      { chunks := [], totalDurationMs := 0, chunkCount := 0, interrupted := false,
        warnings := warnings1 }
    else
      let (artifacts, interrupted, loopWs) :=
        runPlanChunksLoop synthesize options chunkResult.chunks.length 0 chunkResult.chunks
      let warnings2 := warnings1 ++ loopWs
      let totalDurationMs := (artifacts.map (·.durationMs)).sum
      if options.concat ∧ 1 < artifacts.length ∧ ¬ interrupted then
        match options.artifactMode with
        | .base64 =>
          match concatB64 artifacts with
          | .ok (b64, durationMs) =>
            { chunks := artifacts, concatBase64 := some b64,
              totalDurationMs := durationMs, chunkCount := artifacts.length,
              interrupted := interrupted, warnings := warnings2 }
          | .error e =>
            { chunks := artifacts, totalDurationMs := totalDurationMs,
              chunkCount := artifacts.length, interrupted := interrupted,
              warnings := warnings2 ++
                [⟨"CONCAT_FAILED", S "WAV concatenation failed: " ++ e⟩] }
        | .path =>
          match options.outputDir with
          | some dir =>
            match concatFiles artifacts dir with
            | .ok (p, durationMs) =>
              { chunks := artifacts, concatPath := some p,
                totalDurationMs := durationMs, chunkCount := artifacts.length,
                interrupted := interrupted, warnings := warnings2 }
            | .error e =>
              { chunks := artifacts, totalDurationMs := totalDurationMs,
                chunkCount := artifacts.length, interrupted := interrupted,
                warnings := warnings2 ++
                  [⟨"CONCAT_FAILED", S "WAV concatenation failed: " ++ e⟩] }
          | none =>
            { chunks := artifacts, totalDurationMs := totalDurationMs,
              chunkCount := artifacts.length, interrupted := interrupted,
              warnings := warnings2 }
      else
        { chunks := artifacts, totalDurationMs := totalDurationMs,
          chunkCount := artifacts.length, interrupted := interrupted,
          warnings := warnings2 }

/-- `EmotionSynthesisContext`. -/
structure EmotionSynthesisContext where
  emotion : JStr
  voiceId : JStr
  speed : ℚ
  spanIndex : Nat
deriving DecidableEq, Repr

/-- Inner chunk loop of `runEmotionPlan` for one span.  `g` is the global
chunk index, `p` the poll counter (`signal.aborted` is read once per
check, at span level and chunk level alike).  Returns artifacts, added
warnings, the interrupted flag, and the updated counters. -/
def runEmotionChunksLoop (synthesize : JStr → Nat → EmotionSynthesisContext → ChunkArtifact)
    (options : RunPlanOptions) (ctx : EmotionSynthesisContext) (g p : Nat) :
    List JStr → List ChunkArtifact × List OrchWarning × Bool × Nat × Nat
  | [] => ([], [], false, g, p)
  | chunk :: rest =>
    if pollAborted options p then
      ([], [⟨"SYNTHESIS_INTERRUPTED", S ("Synthesis interrupted at chunk " ++ toString g)⟩],
        true, g, p + 1)
    else
      let artifact := synthesize chunk g ctx
      let (arts, ws, intr, g', p') :=
        runEmotionChunksLoop synthesize options ctx (g + 1) (p + 1) rest
      (artifact :: arts, ws, intr, g', p')

/-- Outer span loop of `runEmotionPlan`. -/
def runEmotionSpansLoop (synthesize : JStr → Nat → EmotionSynthesisContext → ChunkArtifact)
    (options : RunPlanOptions) (chunkingOptions : ChunkingOptions)
    (totalSpans : Nat) (spanIdx g p : Nat) :
    List EmotionSpan → List ChunkArtifact × List OrchWarning × Bool
  | [] => ([], [], false)
  | span :: rest =>
    if pollAborted options p then
      ([], [⟨"SYNTHESIS_INTERRUPTED",
        S ("Synthesis interrupted at span " ++ toString spanIdx ++ " of " ++
          toString totalSpans)⟩], true)
    else
      let ctx : EmotionSynthesisContext :=
        ⟨span.emotion, span.voiceId, span.speed, spanIdx⟩
      let chunkResult := chunkText span.text chunkingOptions
      let ws0 := chunkResult.warnings.map liftChunkWarning
      let (arts, ws1, intr, g', p') :=
        runEmotionChunksLoop synthesize options ctx g (p + 1) chunkResult.chunks
      if intr then (arts, ws0 ++ ws1, true)
      else
        let (arts2, ws2, intr2) :=
          runEmotionSpansLoop synthesize options chunkingOptions totalSpans
            (spanIdx + 1) g' p' rest
        (arts ++ arts2, ws0 ++ ws1 ++ ws2, intr2)

/-- `runEmotionPlan` — parse emotion spans, chunk and synthesize each span
with its mapped voice/speed, optionally concatenate. -/
def runEmotionPlan (text : JStr)
    (synthesize : JStr → Nat → EmotionSynthesisContext → ChunkArtifact)
    (options : RunPlanOptions) (chunkingOptions : ChunkingOptions)
    (concatB64 : List ChunkArtifact → Except JStr (JStr × ℚ))
    (concatFiles : List ChunkArtifact → JStr → Except JStr (JStr × ℚ)) : SpeechResult :=
  let parseResult := parseEmotionSpans text
  let warnings0 := parseResult.warnings.map liftEmotionWarning
  if parseResult.spans.isEmpty then
    { chunks := [], totalDurationMs := 0, chunkCount := 0, interrupted := false,
      warnings := warnings0 }
  else
    let (artifacts, loopWs, interrupted) :=
      runEmotionSpansLoop synthesize options chunkingOptions
        parseResult.spans.length 0 0 0 parseResult.spans
    let warnings2 := warnings0 ++ loopWs
    let totalDurationMs := (artifacts.map (·.durationMs)).sum
    if options.concat ∧ 1 < artifacts.length ∧ ¬ interrupted then
      match options.artifactMode with
      | .base64 =>
        match concatB64 artifacts with
        | .ok (b64, durationMs) =>
          { chunks := artifacts, concatBase64 := some b64,
            totalDurationMs := durationMs, chunkCount := artifacts.length,
            interrupted := interrupted, warnings := warnings2 }
        | .error e =>
          { chunks := artifacts, totalDurationMs := totalDurationMs,
            chunkCount := artifacts.length, interrupted := interrupted,
            warnings := warnings2 ++
              [⟨"CONCAT_FAILED", S "WAV concatenation failed: " ++ e⟩] }
      | .path =>
        match options.outputDir with
        | some dir =>
          match concatFiles artifacts dir with
          | .ok (pth, durationMs) =>
            { chunks := artifacts, concatPath := some pth,
              totalDurationMs := durationMs, chunkCount := artifacts.length,
              interrupted := interrupted, warnings := warnings2 }
          | .error e =>
            { chunks := artifacts, totalDurationMs := totalDurationMs,
              chunkCount := artifacts.length, interrupted := interrupted,
              warnings := warnings2 ++
                [⟨"CONCAT_FAILED", S "WAV concatenation failed: " ++ e⟩] }
        | none =>
          { chunks := artifacts, totalDurationMs := totalDurationMs,
            chunkCount := artifacts.length, interrupted := interrupted,
            warnings := warnings2 }
    else
      { chunks := artifacts, totalDurationMs := totalDurationMs,
        chunkCount := artifacts.length, interrupted := interrupted,
        warnings := warnings2 }

/-! ## Synthesis semaphore (`concurrency.ts`) -/

/-- Observable semaphore state: `active` running tasks, `waiting` queued
callers. -/
structure SemState where
  active : Nat
  waiting : Nat
deriving DecidableEq, Repr

/-- Outcome of a `run()` arrival. -/
inductive RunOutcome where
  | admitted
  | queued
  | busy
deriving DecidableEq, Repr

/-- A `run()` call arrives: if below the limit it is admitted (`running++`
happens immediately); at the limit, exactly one caller may queue; any
further caller is rejected with `BusyError` before any state change. -/
def semArrive (maxConcurrent : Nat) (s : SemState) : RunOutcome × SemState :=
  if maxConcurrent ≤ s.active then
    if 1 ≤ s.waiting then (.busy, s)
    else (.queued, { s with waiting := s.waiting + 1 })
  else (.admitted, { s with active := s.active + 1 })

/-- An active task completes: the `finally` block decrements `running`,
shifts the queue, and wakes the waiter (whose continuation re-increments
`running`). -/
def semComplete (s : SemState) : SemState :=
  if 1 ≤ s.waiting then { active := s.active - 1 + 1, waiting := s.waiting - 1 }
  else { s with active := s.active - 1 }

/-- States reachable from the freshly constructed semaphore. -/
inductive SemReach (maxConcurrent : Nat) : SemState → Prop where
  | init : SemReach maxConcurrent ⟨0, 0⟩
  | arrive {s : SemState} : SemReach maxConcurrent s →
      SemReach maxConcurrent (semArrive maxConcurrent s).2
  | complete {s : SemState} : SemReach maxConcurrent s → 1 ≤ s.active →
      SemReach maxConcurrent (semComplete s)

/-! ## WAV codec (`concat.ts`) -/

/-- Little-endian byte encoding of a 32-bit value (after the range check). -/
def wavU32 (n : Nat) : List Nat :=
  [n % 256, n / 256 % 256, n / 65536 % 256, n / 16777216 % 256]

/-- Little-endian byte encoding of a 16-bit value. -/
def wavU16 (n : Nat) : List Nat := [n % 256, n / 256 % 256]

/-- ASCII bytes of a literal. -/
def asciiBytes (s : String) : List Nat := s.toList.map Char.toNat

/-- `buildWavFile` — canonical 44-byte mono 16-bit PCM header plus data.
Node's `writeUInt32LE` throws `ERR_OUT_OF_RANGE` for values outside
`[0, 2^32)`; the checks appear in write order. -/
def buildWavFile (pcmData : List Nat) (sampleRate : Nat) : Except String (List Nat) :=
  let fileSize := 44 + pcmData.length
  if 4294967295 < fileSize - 8 then .error "ERR_OUT_OF_RANGE"
  else if 4294967295 < sampleRate then .error "ERR_OUT_OF_RANGE"
  else if 4294967295 < sampleRate * 2 then .error "ERR_OUT_OF_RANGE"
  else
    .ok (asciiBytes "RIFF" ++ wavU32 (fileSize - 8) ++ asciiBytes "WAVE" ++
      asciiBytes "fmt " ++ wavU32 16 ++ wavU16 1 ++ wavU16 1 ++
      wavU32 sampleRate ++ wavU32 (sampleRate * 2) ++ wavU16 2 ++ wavU16 16 ++
      asciiBytes "data" ++ wavU32 pcmData.length ++ pcmData)

/-- `readUInt32LE`. -/
def readU32 (wav : List Nat) (off : Nat) : Nat :=
  wav.getD off 0 + 256 * wav.getD (off + 1) 0 + 65536 * wav.getD (off + 2) 0 +
    16777216 * wav.getD (off + 3) 0

/-- `buf.toString("ascii", s, e)` — Node's ascii decoding masks the high bit. -/
def asciiSlice (wav : List Nat) (s e : Nat) : List Nat :=
  ((wav.drop s).take (e - s)).map (· % 128)

/-- The data-chunk scan of `parseWavData`: walk chunk headers from offset
12; each step advances by `8 + chunkSize ≥ 8`, so `wav.length` steps of
fuel suffice. -/
def wavScan (wav : List Nat) : Nat → Nat → Option (Nat × Nat)
  | 0, _ => none
  | fuel + 1, offset =>
    if offset < wav.length - 8 then
      let chunkSize := readU32 wav (offset + 4)
      if asciiSlice wav offset (offset + 4) = asciiBytes "data" then
        some (offset + 8, chunkSize)
      else wavScan wav fuel (offset + 8 + chunkSize)
    else none

/-- Parsed WAV payload. -/
structure WavData where
  sampleRate : Nat
  data : List Nat
deriving DecidableEq, Repr

/-- `parseWavData` — validate RIFF/WAVE, read the sample rate, locate the
`data` chunk by scanning; malformed input yields `none`. -/
def parseWavData (wav : List Nat) : Option WavData :=
  if wav.length < 44 then none
  else if asciiSlice wav 0 4 ≠ asciiBytes "RIFF" then none
  else if asciiSlice wav 8 12 ≠ asciiBytes "WAVE" then none
  else
    let sampleRate := readU32 wav 24
    match wavScan wav wav.length 12 with
    | some (dataStart, chunkSize) =>
      some ⟨sampleRate, (wav.drop dataStart).take (min (dataStart + chunkSize) wav.length - dataStart)⟩
    | none => none

/-! ## Voices, presets, dialogue parser (`voices.ts`, `presets.ts`, `dialogue`) -/

/-- Voice gender. -/
inductive Gender where
  | male
  | female
deriving DecidableEq, Repr

/-- `VoiceInfo` (fields used by the claims). -/
structure VoiceInfo where
  id : JStr
  gender : Gender
deriving DecidableEq, Repr

/-- The approved 12-voice roster (`VOICES`), in declaration order. -/
def VOICES : List VoiceInfo :=
  [⟨S "af_aoede", .female⟩, ⟨S "af_jessica", .female⟩, ⟨S "af_sky", .female⟩,
   ⟨S "am_eric", .male⟩, ⟨S "am_fenrir", .male⟩, ⟨S "am_liam", .male⟩,
   ⟨S "am_onyx", .male⟩, ⟨S "bf_alice", .female⟩, ⟨S "bf_emma", .female⟩,
   ⟨S "bf_isabella", .female⟩, ⟨S "bm_george", .male⟩, ⟨S "bm_lewis", .male⟩]

/-- `APPROVED_VOICE_IDS`. -/
def APPROVED_VOICE_IDS : List JStr := VOICES.map (·.id)

/-- `getVoice`. -/
def getVoice (id : JStr) : Option VoiceInfo := VOICES.find? (fun v => v.id = id)

/-- `PRESETS` — name/voice pairs (speed and description are not consumed
by the dialogue caster). -/
def PRESETS : List (JStr × JStr) :=
  [(S "assistant", S "af_jessica"), (S "narrator", S "bm_george"),
   (S "announcer", S "am_eric"), (S "storyteller", S "bf_emma"),
   (S "whisper", S "af_sky")]

/-- `getPreset` (voice component). -/
def getPreset (nm : JStr) : Option JStr :=
  (PRESETS.find? (fun p => p.1 = nm)).map (·.2)

/-- `AUTO_CAST_POOL` — fixed 12-voice gender-alternating pool. -/
def AUTO_CAST_POOL : List JStr :=
  [S "bm_george", S "af_jessica", S "am_eric", S "bf_emma",
   S "am_fenrir", S "af_aoede", S "bm_lewis", S "bf_alice",
   S "am_liam", S "af_sky", S "am_onyx", S "bf_isabella"]

/-- `DialogueWarning`. -/
structure DialogueWarning where
  code : String
  message : JStr
deriving DecidableEq, Repr

/-- `DialogueCue` — a spoken line or a pause. -/
inductive DialogueCue where
  | line (speaker text voiceId : JStr)
  | pause (durationMs : Nat)
deriving DecidableEq, Repr

/-- `CueSheet` (the cast map is an insertion-ordered association list;
speakers are unique so no key repeats). -/
structure CueSheet where
  cues : List DialogueCue
  cast : List (JStr × JStr)
  speakers : List JStr
  warnings : List DialogueWarning
deriving DecidableEq, Repr

/-- `/^\[pause\s+(\d+)\s*(ms)?\]$/i` on a line — returns the digits value. -/
def pauseMatch (l : JStr) : Option Nat :=
  let lc := l.map Char.toLower
  if (S "[pause").isPrefixOf lc then
    let r1 := lc.drop 6
    let ws1 := r1.takeWhile jsWs
    if ws1.isEmpty then none
    else
      let r2 := r1.drop ws1.length
      let ds := r2.takeWhile Char.isDigit
      if ds.isEmpty then none
      else
        let r3 := (r2.drop ds.length).dropWhile jsWs
        if r3 = [']'] ∨ r3 = S "ms]" then some (digitsToNat ds) else none
  else none

/-- `/^([^:]+):\s+(.+)$/` on a line — the speaker runs to the first colon;
then at least one whitespace character and at least one more character
(the greedy `\s+` gives back its last character when nothing else is
left, and `.` matches any character since lines contain no newline). -/
def lineMatch (l : JStr) : Option (JStr × JStr) :=
  match l.findIdx? (· = ':') with
  | none => none
  | some i =>
    if i = 0 then none
    else
      let speaker := l.take i
      let rest := l.drop (i + 1)
      let ws := rest.takeWhile jsWs
      if ws.isEmpty then none
      else if rest.length ≤ ws.length then
        if 2 ≤ rest.length then some (speaker, rest.drop (rest.length - 1)) else none
      else some (speaker, rest.drop ws.length)

/-- `pickAutoVoice` — next pool voice not yet used, advancing the cursor;
wrap to the raw cursor position once the pool is exhausted. -/
def pickAutoVoice (used : List JStr) (startIdx : Nat) : JStr × Nat :=
  match (List.range AUTO_CAST_POOL.length).findSome? (fun i =>
      let idx := (startIdx + i) % AUTO_CAST_POOL.length
      let voiceId := AUTO_CAST_POOL.getD idx []
      if used.contains voiceId then none else some (voiceId, idx + 1)) with
  | some r => r
  | none => (AUTO_CAST_POOL.getD (startIdx % AUTO_CAST_POOL.length) [], startIdx + 1)

/-- `resolveToVoiceId` — approved voice ID or preset name (case-insensitive). -/
def resolveToVoiceId (input : JStr) : Option JStr :=
  let lower := (jsTrim input).map Char.toLower
  if APPROVED_VOICE_IDS.contains lower then some lower
  else
    match getPreset lower with
    | some v => some v
    | none => none

/-- The fold state of `resolveCast`. -/
structure CastState where
  result : List (JStr × JStr)
  usedVoices : List JStr
  autoIdx : Nat
  warnings : List DialogueWarning
deriving Repr

/-- One auto-cast assignment. -/
def castAuto (st : CastState) (speaker : JStr) : CastState :=
  let auto := pickAutoVoice st.usedVoices st.autoIdx
  { st with result := st.result ++ [(speaker, auto.1)],
            usedVoices := st.usedVoices ++ [auto.1], autoIdx := auto.2 }

/-- `resolveCast` — explicit cast entries resolve (warning plus auto-cast
on failure); unlisted speakers auto-cast, in first-seen speaker order. -/
def resolveCast (speakers : List JStr) (explicitCast : List (JStr × JStr))
    (st : CastState) : CastState :=
  match speakers with
  | [] => st
  | speaker :: rest =>
    let explicit := (explicitCast.find? (fun p => p.1 = speaker)).map (·.2)
    let st' :=
      match explicit with
      | some e =>
        if e.isEmpty then castAuto st speaker
        else
          match resolveToVoiceId e with
          | some voiceId =>
            { st with result := st.result ++ [(speaker, voiceId)],
                      usedVoices := st.usedVoices ++ [voiceId] }
          | none =>
            let w : DialogueWarning :=
              ⟨"DIALOGUE_CAST_INVALID",
                S "Cast \"" ++ e ++ S "\" for speaker \"" ++ speaker ++
                  S "\" is not a valid voice or preset, auto-casting instead"⟩
            castAuto { st with warnings := st.warnings ++ [w] } speaker
      | none => castAuto st speaker
    resolveCast rest explicitCast st'

/-- `ParseDialogueOptions`. -/
structure ParseDialogueOptions where
  cast : List (JStr × JStr) := []
  maxSpeakers : Option Nat := none
  maxCues : Option Nat := none

/-- The line-scan state of `parseDialogue`. -/
structure DialogueScanState where
  cues : List DialogueCue
  speakers : List JStr
  warnings : List DialogueWarning
deriving Repr

/-- The per-line scan of `parseDialogue` (cap checks are incremental). -/
def dialogueScan (maxSpeakers maxCues : Nat) (st : DialogueScanState) :
    List JStr → Except JStr DialogueScanState
  | [] => .ok st
  | rawLine :: rest =>
    let trimmed := jsTrim rawLine
    if trimmed.isEmpty ∨ trimmed.head? = some '#' then
      dialogueScan maxSpeakers maxCues st rest
    else
      match pauseMatch trimmed with
      | some ms =>
        let st1 := { st with cues := st.cues ++ [.pause (min ms 5000)] }
        if maxCues < st1.cues.length then
          .error (S ("Too many cues (max " ++ toString maxCues ++ ")"))
        else dialogueScan maxSpeakers maxCues st1 rest
      | none =>
        match lineMatch trimmed with
        | some (speakerRaw, textRaw) =>
          let speaker := jsTrim speakerRaw
          let text := jsTrim textRaw
          if text.isEmpty then
            let w : DialogueWarning :=
              ⟨"DIALOGUE_EMPTY_LINE",
                S "Empty text for speaker \"" ++ speaker ++ S "\", skipped"⟩
            dialogueScan maxSpeakers maxCues
              { st with warnings := st.warnings ++ [w] } rest
          else
            let speakers1 :=
              if st.speakers.contains speaker then st.speakers
              else st.speakers ++ [speaker]
            if maxSpeakers < speakers1.length then
              .error (S ("Too many speakers (max " ++ toString maxSpeakers ++ ")"))
            else
              let st1 := { st with speakers := speakers1,
                                   cues := st.cues ++ [.line speaker text []] }
              if maxCues < st1.cues.length then
                .error (S ("Too many cues (max " ++ toString maxCues ++ ")"))
              else dialogueScan maxSpeakers maxCues st1 rest
        | none =>
          let w : DialogueWarning :=
            ⟨"DIALOGUE_UNRECOGNIZED_LINE",
              S "Unrecognized line format: \"" ++ trimmed.take 50 ++ S "\""⟩
          dialogueScan maxSpeakers maxCues
            { st with warnings := st.warnings ++ [w] } rest

/-- `parseDialogue` — scan lines, enforce caps, resolve the cast, and
back-fill voice IDs; structurally invalid scripts throw. -/
def parseDialogue (script : JStr) (options : ParseDialogueOptions) :
    Except JStr CueSheet :=
  let maxSpeakers := options.maxSpeakers.getD 10
  let maxCues := options.maxCues.getD 100
  match dialogueScan maxSpeakers maxCues ⟨[], [], []⟩ (script.splitOn '\n') with
  | .error e => .error e
  | .ok st =>
    if st.cues.isEmpty then .error (S "No valid dialogue lines found in script")
    else
      let castState := resolveCast st.speakers options.cast ⟨[], [], 0, st.warnings⟩
      let resolvedCues := st.cues.map (fun cue =>
        match cue with
        | .line speaker text _ =>
          .line speaker text
            (((castState.result.find? (fun p => p.1 = speaker)).map (·.2)).getD [])
        | .pause ms => .pause ms)
      .ok { cues := resolvedCues, cast := castState.result, speakers := st.speakers,
            warnings := castState.warnings }

/-! ## Derived notions used by the claim statements -/

/-- Is a plan segment a text segment? -/
def segIsText : PlanSegment → Bool
  | .text _ => true
  | .event _ => false

/-- A normalized segment list: no two adjacent text segments, and every
text segment contains at least one non-whitespace character. -/
def NormalizedSegs (segs : List PlanSegment) : Prop :=
  List.Chain' (fun a b => ¬ (segIsText a = true ∧ segIsText b = true)) segs ∧
  ∀ v : JStr, PlanSegment.text v ∈ segs → v.all jsWs = false

/-- The number of chunks `runEmotionPlan` plans for a text: the sum over
parsed spans of each span's chunk count. -/
def emotionPlannedChunks (text : JStr) (chunkingOptions : ChunkingOptions) : Nat :=
  (((parseEmotionSpans text).spans).map
    (fun sp => (chunkText sp.text chunkingOptions).chunks.length)).sum

/-- The build/parse WAV round-trip property of claim C9. -/
def wavRoundTrips (pcm : List Nat) (rate : Nat) : Prop :=
  ∃ w, buildWavFile pcm rate = .ok w ∧ parseWavData w = some ⟨rate, pcm⟩

/-- Decidable equality on `Except`, for concrete evaluation of fallible
results. -/
instance exceptDecEq {ε α : Type} [DecidableEq ε] [DecidableEq α] :
    DecidableEq (Except ε α) := fun a b =>
  match a, b with
  | .ok x, .ok y =>
    if h : x = y then .isTrue (by rw [h])
    else .isFalse (by intro he; cases he; exact h rfl)
  | .error x, .error y =>
    if h : x = y then .isTrue (by rw [h])
    else .isFalse (by intro he; cases he; exact h rfl)
  | .ok _, .error _ => .isFalse (by intro he; cases he)
  | .error _, .ok _ => .isFalse (by intro he; cases he)

/-! # Theorems -/

/-! ## Shared string lemmas -/

theorem length_dropWhile_le (p : Char → Bool) (l : JStr) :
    (l.dropWhile p).length ≤ l.length := by
  have h := congrArg List.length (List.takeWhile_append_dropWhile p l)
  simp only [List.length_append] at h
  omega

theorem jsTrim_length_le (s : JStr) : (jsTrim s).length ≤ s.length := by
  unfold jsTrim
  have h1 := length_dropWhile_le jsWs s
  have h2 := length_dropWhile_le jsWs (s.dropWhile jsWs).reverse
  simp only [List.length_reverse] at *
  omega

theorem jsTrim_eq_nil_iff (s : JStr) : jsTrim s = [] ↔ s.all jsWs = true := by
  unfold jsTrim
  rw [List.reverse_eq_nil_iff, List.dropWhile_eq_nil_iff]
  constructor
  · intro h
    rw [List.all_eq_true]
    intro x hx
    have hx2 : x ∈ s.takeWhile jsWs ++ s.dropWhile jsWs := by
      rw [List.takeWhile_append_dropWhile]; exact hx
    rcases List.mem_append.mp hx2 with h1 | h1
    · exact List.mem_takeWhile_imp h1
    · exact h x (List.mem_reverse.mpr h1)
  · intro h x hx
    rw [List.all_eq_true] at h
    exact h x ((List.dropWhile_sublist jsWs).subset (List.mem_reverse.mp hx))

theorem jsTrim_all_ws_false (s : JStr) (h : jsTrim s ≠ []) :
    (jsTrim s).all jsWs = false := by
  unfold jsTrim at *
  set u := (s.dropWhile jsWs).reverse.dropWhile jsWs with hu
  have hne : u ≠ [] := fun hn => h (by rw [hn]; rfl)
  have hlen : 0 < u.length := List.length_pos.mpr hne
  have hhead := List.dropWhile_get_zero_not jsWs (s.dropWhile jsWs).reverse
    (by rw [← hu]; exact hlen)
  rw [Bool.eq_false_iff]
  intro hall
  rw [List.all_reverse, List.all_eq_true] at hall
  exact hhead (hall _ (List.get_mem u 0 hlen))

theorem jsTrim_ne_nil_of_not_ws {s : JStr} {c : Char} (hc : c ∈ s)
    (hw : jsWs c = false) : jsTrim s ≠ [] := by
  intro h
  rw [jsTrim_eq_nil_iff, List.all_eq_true] at h
  rw [h c hc] at hw
  simp at hw

theorem jsTrim_trim_ne_nil {s : JStr} (h : jsTrim s ≠ []) : jsTrim (jsTrim s) ≠ [] := by
  intro hn
  rw [jsTrim_eq_nil_iff] at hn
  rw [jsTrim_all_ws_false s h] at hn
  simp at hn

/-! ## C1 / C7 — chunker size bound and single-chunk identity -/

theorem lastSpaceLe_le (s : JStr) (k i : Nat) (h : lastSpaceLe s k = some i) : i ≤ k := by
  unfold lastSpaceLe at h
  suffices hgen : ∀ (l : List Nat) (acc : Option Nat),
      (∀ j, acc = some j → j ≤ k) → ∀ j, (l.foldl
        (fun acc i => if i ≤ k ∧ s.getD i '\x00' = ' ' then some i else acc) acc) = some j →
        j ≤ k by
    exact hgen (List.range s.length) none (by intro j hj; cases hj) i h
  intro l
  induction l with
  | nil => intro acc hacc j hj; exact hacc j hj
  | cons x xs ih =>
    intro acc hacc j hj
    refine ih _ ?_ j hj
    intro j' hj'
    simp only at hj'
    by_cases hc : x ≤ k ∧ s.getD x '\x00' = ' '
    · rw [if_pos hc] at hj'
      cases hj'
      exact hc.1
    · rw [if_neg hc] at hj'
      exact hacc j' hj'

theorem hardSplitAux_length_le (limit : Nat) (hlim : 1 ≤ limit) :
    ∀ (fuel : Nat) (remaining : JStr), remaining.length ≤ fuel →
      ∀ c ∈ hardSplitAux limit fuel remaining, c.length ≤ limit := by
  intro fuel
  induction fuel with
  | zero =>
    intro remaining hrem c hc
    unfold hardSplitAux at hc
    rw [List.mem_singleton] at hc
    subst hc; omega
  | succ n ih =>
    intro remaining hrem c hc
    unfold hardSplitAux at hc
    by_cases hlen : limit < remaining.length
    · rw [if_pos hlen] at hc
      have hsplit : (match lastSpaceLe remaining limit with
          | some i => if i = 0 then limit else i
          | none => limit) ≤ limit ∧
          1 ≤ (match lastSpaceLe remaining limit with
          | some i => if i = 0 then limit else i
          | none => limit) := by
        cases hls : lastSpaceLe remaining limit with
        | none => exact ⟨le_refl _, hlim⟩
        | some i =>
          by_cases hi : i = 0
          · simp only [hi, if_pos rfl]
            exact ⟨le_refl _, hlim⟩
          · simp only [if_neg hi]
            exact ⟨lastSpaceLe_le remaining limit i hls, Nat.one_le_iff_ne_zero.mpr hi⟩
      rcases List.mem_cons.mp hc with hc | hc
      · subst hc
        calc (jsTrim (remaining.take _)).length
            ≤ (remaining.take _).length := jsTrim_length_le _
          _ ≤ _ := List.length_take_le _ _
          _ ≤ limit := hsplit.1
      · refine ih _ ?_ c hc
        have h1 := jsTrim_length_le (remaining.drop (match lastSpaceLe remaining limit with
          | some i => if i = 0 then limit else i
          | none => limit))
        rw [List.length_drop] at h1
        omega
    · rw [if_neg hlen] at hc
      by_cases he : remaining.isEmpty
      · rw [if_pos he] at hc; cases hc
      · rw [if_neg he] at hc
        rw [List.mem_singleton] at hc
        subst hc; omega

theorem hardSplit_length_le (text : JStr) (m : Nat) (hlim : 1 ≤ m) :
    ∀ c ∈ hardSplit text (some m), c.length ≤ m := by
  intro c hc
  exact hardSplitAux_length_le m hlim text.length text (le_refl _) c hc

theorem refineSplits_hardSplit_le (chunks : List JStr) (m : Nat) (hlim : 1 ≤ m) :
    ∀ c ∈ refineSplits chunks m (fun c => hardSplit c (some m)), c.length ≤ m := by
  intro c hc
  unfold refineSplits at hc
  rw [List.mem_flatten] at hc
  obtain ⟨l, hl, hcl⟩ := hc
  rw [List.mem_map] at hl
  obtain ⟨orig, _, horig⟩ := hl
  by_cases hle : orig.length ≤ m
  · rw [if_pos hle] at horig
    rw [← horig] at hcl
    rw [List.mem_singleton] at hcl
    subst hcl; omega
  · rw [if_neg hle] at horig
    rw [← horig] at hcl
    exact hardSplit_length_le orig m hlim c hcl

theorem mergeTinyGo_length_le (minC maxC : Nat) :
    ∀ (rest : List JStr) (last : JStr), last.length ≤ maxC →
      (∀ c ∈ rest, c.length ≤ maxC) →
      ∀ c ∈ mergeTinyGo minC maxC last rest, c.length ≤ maxC := by
  intro rest
  induction rest with
  | nil =>
    intro last hlast _ c hc
    unfold mergeTinyGo at hc
    rw [List.mem_singleton] at hc
    subst hc; exact hlast
  | cons cur rs ih =>
    intro last hlast hrest c hc
    unfold mergeTinyGo at hc
    by_cases hm : cur.length < minC ∧ last.length + cur.length + 1 ≤ maxC
    · rw [if_pos hm] at hc
      refine ih _ ?_ (fun d hd => hrest d (List.mem_cons_of_mem _ hd)) c hc
      simp only [List.length_append, List.length_cons]
      omega
    · rw [if_neg hm] at hc
      rcases List.mem_cons.mp hc with hc | hc
      · subst hc; exact hlast
      · exact ih _ (hrest cur (List.mem_cons_self _ _))
          (fun d hd => hrest d (List.mem_cons_of_mem _ hd)) c hc

theorem mergeTiny_length_le (chunks : List JStr) (minC maxC : Nat)
    (h : ∀ c ∈ chunks, c.length ≤ maxC) :
    ∀ c ∈ mergeTiny chunks minC maxC, c.length ≤ maxC := by
  intro c hc
  unfold mergeTiny at hc
  cases chunks with
  | nil => cases hc
  | cons c0 rest =>
    exact mergeTinyGo_length_le minC maxC rest c0 (h c0 (List.mem_cons_self _ _))
      (fun d hd => h d (List.mem_cons_of_mem _ hd)) c hc

/-- C1: every chunk produced by `chunkText` is at most the effective
`maxChunkChars` long (the override, default 600), through the whole
cascade including hard split and tiny-chunk merging.  The hypothesis
`1 ≤ maxChunkChars` excludes the degenerate limit 0, at which the JS
`hardSplit` loop does not terminate. -/
theorem chunkText_chunk_length_le (text : JStr) (options : ChunkingOptions)
    (hlim : 1 ≤ options.maxChunkChars.getD CHUNK_LIMITS.maxChunkChars) :
    ∀ c ∈ (chunkText text options).chunks,
      c.length ≤ options.maxChunkChars.getD CHUNK_LIMITS.maxChunkChars := by
  intro c hc
  simp only [chunkText] at hc
  split at hc
  · simp only [List.not_mem_nil] at hc
  · split at hc <;>
    · split at hc
      · simp only [List.mem_singleton] at hc
        subst hc
        assumption
      · simp only at hc
        split at hc
        · exact mergeTiny_length_le _ _ _
            (fun d hd => refineSplits_hardSplit_le _ _ hlim d hd) c (List.take_subset _ _ hc)
        · exact mergeTiny_length_le _ _ _
            (fun d hd => refineSplits_hardSplit_le _ _ hlim d hd) c hc

/-- Witness for C1 at a concrete input and the default options. -/
theorem chunkText_chunk_length_le_witness :
    1 ≤ (({} : ChunkingOptions).maxChunkChars.getD CHUNK_LIMITS.maxChunkChars) ∧
    ∀ c ∈ (chunkText (S "One. Two. Three.") {}).chunks,
      c.length ≤ (({} : ChunkingOptions).maxChunkChars.getD CHUNK_LIMITS.maxChunkChars) :=
  ⟨by decide, chunkText_chunk_length_le (S "One. Two. Three.") {} (by decide)⟩

/-- C7 counterexample: `chunkText` trims its input first, so for the
two-character input `" a"` (length ≤ maxChunkChars) the chunks are
`["a"]`, not `[" a"]`. -/
theorem chunkText_short_not_id_counterexample :
    ¬ ((chunkText (S " a") {}).chunks = [S " a"] ∧
      (chunkText (S " a") {}).wasChunked = false) := by
  decide

/-- C7 as amended: for every trim-fixed nonempty `T` with
`|T| ≤ maxChunkChars` (default 600), `chunkText T` returns exactly `[T]`
with `wasChunked = false`. -/
theorem chunkText_short_id (T : JStr) (h1 : jsTrim T = T) (h2 : T ≠ [])
    (h3 : T.length ≤ CHUNK_LIMITS.maxChunkChars) :
    (chunkText T {}).chunks = [T] ∧ (chunkText T {}).wasChunked = false := by
  have h3' : T.length ≤ 600 := by simpa [CHUNK_LIMITS] using h3
  have h4 : ¬ ((12000 : Nat) < T.length) := by omega
  simp [chunkText, h1, h2, h3', h4, CHUNK_LIMITS]

/-- Witness for C7 (amended) at `T = "hello"`. -/
theorem chunkText_short_id_witness :
    (chunkText (S "hello") {}).chunks = [S "hello"] ∧
    (chunkText (S "hello") {}).wasChunked = false :=
  chunkText_short_id (S "hello") (by decide) (by decide) (by decide)
/-- C6: the two-line script with no cast assigns two distinct approved
voice IDs by auto-cast — the first speaker gets the pool's first (male)
voice `bm_george`, the second the next pool voice `af_jessica` — and the
pool is the fixed 12-voice gender-alternating list with the shared cursor
advancing past each assignment. -/
theorem parseDialogue_autocast_two_speakers :
    parseDialogue (S "Alice: Hi\nBob: Hey") {} =
      .ok { cues := [.line (S "Alice") (S "Hi") (S "bm_george"),
                     .line (S "Bob") (S "Hey") (S "af_jessica")],
            cast := [(S "Alice", S "bm_george"), (S "Bob", S "af_jessica")],
            speakers := [S "Alice", S "Bob"],
            warnings := [] } ∧
    S "bm_george" ≠ S "af_jessica" ∧
    APPROVED_VOICE_IDS.contains (S "bm_george") = true ∧
    APPROVED_VOICE_IDS.contains (S "af_jessica") = true ∧
    (getVoice (S "bm_george")).map (·.gender) = some .male ∧
    AUTO_CAST_POOL.length = 12 ∧
    AUTO_CAST_POOL.getD 0 [] = S "bm_george" ∧
    AUTO_CAST_POOL.getD 1 [] = S "af_jessica" ∧
    (AUTO_CAST_POOL.zip AUTO_CAST_POOL.tail).all
      (fun p => decide ((getVoice p.1).map (·.gender) ≠ (getVoice p.2).map (·.gender))) = true ∧
    pickAutoVoice [] 0 = (S "bm_george", 1) ∧
    pickAutoVoice [S "bm_george"] 1 = (S "af_jessica", 2) ∧
    pickAutoVoice [S "bm_george"] 0 = (S "af_jessica", 2) := by
  decide
/-! ## C3 — SFX event cap -/

theorem sfxHandleTag_count_le (st : SfxState) (w : JStr)
    (h : st.sfxCount ≤ SFX_MAX_EVENTS) :
    (sfxHandleTag st w).sfxCount ≤ SFX_MAX_EVENTS := by
  simp only [sfxHandleTag]
  split
  · exact h
  · split
    · exact h
    · split
      · exact h
      · show st.sfxCount + 1 ≤ SFX_MAX_EVENTS
        omega

theorem sfxLoop_count_le (fuel : Nat) :
    ∀ (rest : JStr) (st : SfxState), st.sfxCount ≤ SFX_MAX_EVENTS →
      (sfxLoop fuel rest st).sfxCount ≤ SFX_MAX_EVENTS := by
  induction fuel with
  | zero => intro rest st h; exact h
  | succ n ih =>
    intro rest st h
    simp only [sfxLoop]
    split
    · split
      · exact h
      · exact h
    · rename_i x pre w rest2 heq
      exact ih rest2 _ (sfxHandleTag_count_le _ w (by split <;> exact h))

/-- C3: `sfxCount` never exceeds the configured cap (30), and at the
concrete input of 32 known tags the count is exactly the cap, with one
`SFX_MAX_EVENTS` warning and the two excess known tags kept as literal
text segments. -/
theorem parseSfxTags_cap :
    (∀ text : JStr, (parseSfxTags text true).sfxCount ≤ SFX_MAX_EVENTS) ∧
    (parseSfxTags (S (String.join (List.replicate 32 "[ding]"))) true).sfxCount =
      SFX_MAX_EVENTS ∧
    (parseSfxTags (S (String.join (List.replicate 32 "[ding]"))) true).warnings.map
      (·.code) = ["SFX_MAX_EVENTS"] ∧
    ((parseSfxTags (S (String.join (List.replicate 32 "[ding]"))) true).segments.drop 30) =
      [.text (S "[ding]"), .text (S "[ding]")] ∧
    ((parseSfxTags (S (String.join (List.replicate 32 "[ding]"))) true).segments.take 30) =
      List.replicate 30 (.sfx (S "ding")) := by
  refine ⟨?_, by decide, by decide, by decide, by decide⟩
  intro text
  simp only [parseSfxTags]
  split
  · next h => exact (h trivial).elim
  · split
    · exact sfxLoop_count_le (text.length + 1) text ⟨[], [], 0, false⟩ (by decide)
    · exact sfxLoop_count_le (text.length + 1) text ⟨[], [], 0, false⟩ (by decide)
/-! ## C4 — semaphore state machine -/

/-- C4: in every reachable semaphore state, `active ≤ maxConcurrent` and
`waiting ≤ 1`; an arrival at `active = maxConcurrent, waiting = 0` queues
(yielding `waiting = 1` with `active` unchanged); an arrival at
`active = maxConcurrent, waiting ≥ 1` rejects with Busy and leaves the
state untouched. -/
theorem semaphore_invariants (maxConcurrent : Nat) :
    (∀ s : SemState, SemReach maxConcurrent s →
      s.active ≤ maxConcurrent ∧ s.waiting ≤ 1) ∧
    (∀ s : SemState, s.active = maxConcurrent → s.waiting = 0 →
      semArrive maxConcurrent s = (.queued, ⟨maxConcurrent, 1⟩)) ∧
    (∀ s : SemState, s.active = maxConcurrent → 1 ≤ s.waiting →
      semArrive maxConcurrent s = (.busy, s)) := by
  refine ⟨?_, ?_, ?_⟩
  · intro s hs
    induction hs with
    | init => exact ⟨Nat.zero_le _, Nat.zero_le _⟩
    | arrive hprev ih =>
      rename_i s'
      unfold semArrive
      by_cases h1 : maxConcurrent ≤ s'.active
      · rw [if_pos h1]
        by_cases h2 : 1 ≤ s'.waiting
        · rw [if_pos h2]; exact ih
        · rw [if_neg h2]
          exact ⟨ih.1, by simp only; omega⟩
      · rw [if_neg h1]
        exact ⟨by simp only; omega, ih.2⟩
    | complete hprev hact ih =>
      rename_i s'
      unfold semComplete
      by_cases h2 : 1 ≤ s'.waiting
      · rw [if_pos h2]
        refine ⟨?_, ?_⟩ <;> simp only <;> omega
      · rw [if_neg h2]
        refine ⟨?_, ?_⟩ <;> simp only <;> omega
  · intro s h1 h2
    unfold semArrive
    rw [if_pos (by omega), if_neg (by omega)]
    cases s
    simp_all
  · intro s h1 h2
    unfold semArrive
    rw [if_pos (by omega), if_pos h2]

/-- Witness for C4 at `maxConcurrent = 1` and the reachable full state
`⟨1, 0⟩` (one admitted call). -/
theorem semaphore_invariants_witness :
    (SemState.mk 1 0).active ≤ 1 ∧ (SemState.mk 1 0).waiting ≤ 1 ∧
    semArrive 1 ⟨1, 0⟩ = (.queued, ⟨1, 1⟩) ∧
    semArrive 1 ⟨1, 1⟩ = (.busy, ⟨1, 1⟩) := by
  have hreach : SemReach 1 ⟨1, 0⟩ := by
    have h0 : SemReach 1 ⟨0, 0⟩ := SemReach.init
    have h := h0.arrive
    simpa [semArrive] using h
  have h1 := (semaphore_invariants 1).1 ⟨1, 0⟩ hreach
  have h2 := (semaphore_invariants 1).2.1 ⟨1, 0⟩ rfl rfl
  have h3 := (semaphore_invariants 1).2.2 ⟨1, 1⟩ rfl (by decide)
  exact ⟨h1.1, h1.2, h2, h3⟩
/-! ## C9 — WAV build/parse round trip -/

theorem readLE4_eq (n : Nat) (h : n < 4294967296) :
    n % 256 + 256 * (n / 256 % 256) + 65536 * (n / 65536 % 256) +
      16777216 * (n / 16777216 % 256) = n := by
  omega

theorem wavScan_skip (wav : List Nat) (fuel offset : Nat)
    (hf : 1 ≤ fuel) (h : offset < wav.length - 8)
    (hne : asciiSlice wav offset (offset + 4) ≠ asciiBytes "data") :
    wavScan wav fuel offset =
      wavScan wav (fuel - 1) (offset + 8 + readU32 wav (offset + 4)) := by
  cases fuel with
  | zero => omega
  | succ n =>
    unfold wavScan
    simp only [if_pos h, if_neg hne, Nat.add_sub_cancel]
    cases n <;> rfl

theorem wavScan_found (wav : List Nat) (fuel offset : Nat)
    (hf : 1 ≤ fuel) (h : offset < wav.length - 8)
    (heq : asciiSlice wav offset (offset + 4) = asciiBytes "data") :
    wavScan wav fuel offset = some (offset + 8, readU32 wav (offset + 4)) := by
  cases fuel with
  | zero => omega
  | succ n =>
    unfold wavScan
    simp only [if_pos h, if_pos heq]

/-- C9 counterexample: at sample rate `2^31` the header write
`writeUInt32LE(sampleRate * 2)` is out of range and `buildWavFile`
throws, so the round trip fails as stated. -/
theorem wav_roundtrip_counterexample : ¬ wavRoundTrips [0, 0] (2 ^ 31) := by
  intro ⟨w, hw, _⟩
  rw [show buildWavFile [0, 0] (2 ^ 31) = .error "ERR_OUT_OF_RANGE" from by decide] at hw
  cases hw

/-- C9 as amended: for every nonempty even-length byte buffer (small
enough for the 32-bit size fields) and every sample rate at most
`2^31 - 1` (so the derived byte rate fits 32 bits), parsing the built
WAV recovers exactly the sample rate and the PCM bytes. -/
theorem buildWav_parseWav_roundtrip (pcm : List Nat) (rate : Nat) (h1 : pcm ≠ [])
    (h2 : pcm.length % 2 = 0) (h3 : pcm.length + 36 ≤ 4294967295)
    (h4 : rate ≤ 2147483647) : wavRoundTrips pcm rate := by
  have hpos : 0 < pcm.length := List.length_pos.mpr h1
  have hR : asciiBytes "RIFF" = [82, 73, 70, 70] := by decide
  have hW : asciiBytes "WAVE" = [87, 65, 86, 69] := by decide
  have hF : asciiBytes "fmt " = [102, 109, 116, 32] := by decide
  have hD : asciiBytes "data" = [100, 97, 116, 97] := by decide
  have hbuild : buildWavFile pcm rate = .ok (asciiBytes "RIFF" ++
      wavU32 (44 + pcm.length - 8) ++ asciiBytes "WAVE" ++ asciiBytes "fmt " ++
      wavU32 16 ++ wavU16 1 ++ wavU16 1 ++ wavU32 rate ++ wavU32 (rate * 2) ++
      wavU16 2 ++ wavU16 16 ++ asciiBytes "data" ++ wavU32 pcm.length ++ pcm) := by
    unfold buildWavFile
    rw [if_neg (by omega), if_neg (by omega), if_neg (by omega)]
  refine ⟨_, hbuild, ?_⟩
  rw [hR, hW, hF, hD]
  simp only [wavU32, wavU16]
  simp only [List.cons_append, List.nil_append]
  norm_num
  unfold parseWavData
  rw [if_neg (by simp)]
  rw [if_neg (by simp [asciiSlice, asciiBytes])]
  rw [if_neg (by simp [asciiSlice, asciiBytes])]
  simp only [readU32, List.getD_cons_succ, List.getD_cons_zero]
  rw [readLE4_eq rate (by omega)]
  rw [wavScan_skip]
  rotate_left
  · (try simp only [List.length_cons]); omega
  · (try simp only [List.length_cons]); omega
  · simp [asciiSlice, asciiBytes]
  simp only [readU32, List.getD_cons_succ, List.getD_cons_zero, Nat.reduceAdd]
  rw [wavScan_found]
  rotate_left
  · (try simp only [List.length_cons]); omega
  · (try simp only [List.length_cons]); omega
  · simp [asciiSlice, asciiBytes]
  simp only [readU32, List.getD_cons_succ, List.getD_cons_zero, Nat.reduceAdd]
  rw [readLE4_eq pcm.length (by omega)]
  simp only [Nat.reduceAdd, List.drop_succ_cons, List.drop_zero]
  have htk : pcm.length ≤ (44 + pcm.length) ⊓
      (82 :: 73 :: 70 :: 70 :: (44 + pcm.length - 8) % 256 ::
        (44 + pcm.length - 8) / 256 % 256 :: (44 + pcm.length - 8) / 65536 % 256 ::
        (44 + pcm.length - 8) / 16777216 % 256 :: 87 :: 65 :: 86 :: 69 ::
        102 :: 109 :: 116 :: 32 :: 16 :: 0 :: 0 :: 0 :: 1 :: 0 :: 1 :: 0 ::
        rate % 256 :: rate / 256 % 256 :: rate / 65536 % 256 ::
        rate / 16777216 % 256 :: rate * 2 % 256 :: rate * 2 / 256 % 256 ::
        rate * 2 / 65536 % 256 :: rate * 2 / 16777216 % 256 :: 2 :: 0 :: 16 :: 0 ::
        100 :: 97 :: 116 :: 97 :: pcm.length % 256 :: pcm.length / 256 % 256 ::
        pcm.length / 65536 % 256 :: pcm.length / 16777216 % 256 :: pcm).length - 44 := by
    simp only [List.length_cons, Nat.min_def, inf_eq_min]
    split <;> omega
  rw [List.take_of_length_le htk]
  try rfl

/-- Witness for C9 (amended) at a concrete two-byte buffer and 24 kHz. -/
theorem buildWav_parseWav_roundtrip_witness : wavRoundTrips [1, 2] 24000 :=
  buildWav_parseWav_roundtrip [1, 2] 24000 (by decide) (by decide) (by decide) (by decide)
/-! ## C2 — parseSsmlLite total, fallback on internal error -/

/-- C2: `parseSsmlLite` is a total function by construction (the embedded
`doParse` returns `Except` and the entry point matches on it, mirroring
the `try`/`catch`); whenever the internal parse fails, the result is
exactly the tag-stripped plain-text fallback carrying a single
`SSML_PARSE_FAILED` warning. -/
theorem parseSsmlLite_fallback (input e : JStr)
    (hssml : looksLikeSsml (jsTrim input) = true)
    (herr : doParse (jsTrim input) = .error e) :
    parseSsmlLite input = plainTextFallback (jsTrim input) e ∧
    (parseSsmlLite input).warnings =
      [⟨"SSML_PARSE_FAILED",
        S "SSML parse failed, using plain text fallback: " ++ e⟩] ∧
    (parseSsmlLite input).plainText = stripAllTags (jsTrim input) := by
  have hmain : parseSsmlLite input = plainTextFallback (jsTrim input) e := by
    unfold parseSsmlLite
    rw [if_neg (by rw [hssml]; exact not_not_intro rfl), herr]
  refine ⟨hmain, ?_, ?_⟩ <;> rw [hmain] <;> rfl

/-- Witness for C2: an input with 401 tags (one `<sub>` to pass the SSML
sniff, then 400 `<p>` tags) trips the node cap, and the entry point
degrades instead of propagating the error. -/
theorem parseSsmlLite_fallback_witness :
    looksLikeSsml (jsTrim (S ("<sub>" ++ String.join (List.replicate 400 "<p>")))) = true ∧
    parseSsmlLite (S ("<sub>" ++ String.join (List.replicate 400 "<p>"))) =
      plainTextFallback (jsTrim (S ("<sub>" ++ String.join (List.replicate 400 "<p>"))))
        (S "Too many SSML nodes (max 400)") ∧
    (parseSsmlLite (S ("<sub>" ++ String.join (List.replicate 400 "<p>")))).warnings.map
      (·.code) = ["SSML_PARSE_FAILED"] := by
  have h := parseSsmlLite_fallback (S ("<sub>" ++ String.join (List.replicate 400 "<p>")))
    (S "Too many SSML nodes (max 400)") (by decide) (by decide)
  exact ⟨by decide, h.1, by rw [h.2.1]; rfl⟩
/-! ## C10 — segment normalization invariant -/

theorem normalizedSegs_nil : NormalizedSegs [] := ⟨List.chain'_nil, by intro v hv; cases hv⟩

theorem normalizedSegs_append_event (segs : List PlanSegment) (e : SpeechEvent)
    (h : NormalizedSegs segs) : NormalizedSegs (segs ++ [.event e]) := by
  refine ⟨List.Chain'.append h.1 (List.chain'_singleton _) ?_, ?_⟩
  · intro a ha y hy
    simp only [List.head?_cons, Option.mem_def, Option.some.injEq] at hy
    subst hy
    intro hcon
    simp [segIsText] at hcon
  · intro v hv
    rcases List.mem_append.mp hv with h1 | h1
    · exact h.2 v h1
    · simp only [List.mem_singleton] at h1
      cases h1

theorem normalizedSegs_addTextSegs (segs : List PlanSegment) (text : JStr)
    (h : NormalizedSegs segs) (ht : text.all jsWs = false) :
    NormalizedSegs (addTextSegs segs text) := by
  unfold addTextSegs
  cases hlast : segs.getLast? with
  | none =>
    have hnil : segs = [] := by
      cases segs with
      | nil => rfl
      | cons a l => simp [List.getLast?_eq_getLast] at hlast
    subst hnil
    refine ⟨List.chain'_singleton _, ?_⟩
    intro v hv
    simp only [List.nil_append, List.mem_singleton, PlanSegment.text.injEq] at hv
    subst hv
    exact ht
  | some seg =>
    cases seg with
    | text v =>
      have hne : segs ≠ [] := by
        intro hnil; subst hnil; simp at hlast
      have hgl : segs.getLast hne = PlanSegment.text v := by
        have := List.getLast?_eq_getLast segs hne
        rw [hlast] at this
        exact (Option.some.injEq _ _).mp this.symm
      have hdecomp : segs.dropLast ++ [PlanSegment.text v] = segs :=
        hgl ▸ List.dropLast_append_getLast hne
      have hchain : List.Chain'
          (fun a b => ¬ (segIsText a = true ∧ segIsText b = true)) segs := h.1
      rw [← hdecomp] at hchain
      rw [List.chain'_append] at hchain
      refine ⟨?_, ?_⟩
      · rw [List.chain'_append]
        refine ⟨hchain.1, List.chain'_singleton _, ?_⟩
        intro a ha y hy
        simp only [List.head?_cons, Option.mem_def, Option.some.injEq] at hy
        subst hy
        exact hchain.2.2 a ha (PlanSegment.text v) rfl
      · intro w hw
        rcases List.mem_append.mp hw with h1 | h1
        · exact h.2 w (List.dropLast_sublist segs |>.subset h1)
        · simp only [List.mem_singleton, PlanSegment.text.injEq] at h1
          subst h1
          have hv : v.all jsWs = false := h.2 v (by rw [← hdecomp]; simp)
          rw [List.all_append, hv]
          rfl
    | event e =>
      have hne : segs ≠ [] := by
        intro hnil; subst hnil; simp at hlast
      refine ⟨List.Chain'.append h.1 (List.chain'_singleton _) ?_, ?_⟩
      · intro a ha y hy
        simp only [List.head?_cons, Option.mem_def, Option.some.injEq] at hy
        subst hy
        rw [List.getLast?_eq_getLast segs hne] at hlast
        have hgl : segs.getLast hne = PlanSegment.event e :=
          (Option.some.injEq _ _).mp hlast
        rw [List.getLast?_eq_getLast segs hne] at ha
        simp only [Option.mem_def, Option.some.injEq] at ha
        subst ha
        rw [hgl]
        intro hcon
        simp [segIsText] at hcon
      · intro w hw
        rcases List.mem_append.mp hw with h1 | h1
        · exact h.2 w h1
        · simp only [List.mem_singleton, PlanSegment.text.injEq] at h1
          subst h1
          exact ht

theorem normalizedSegs_pushEvent (st : ParseState) (e : SpeechEvent)
    (h : NormalizedSegs st.segments) : NormalizedSegs (pushEvent st e).segments :=
  normalizedSegs_append_event st.segments e h

theorem normalizedSegs_addText (st : ParseState) (raw : JStr) (st' : ParseState)
    (h : NormalizedSegs st.segments) (heq : addText st raw = .ok st') :
    NormalizedSegs st'.segments := by
  simp only [addText] at heq
  split at heq
  · cases heq
    exact h
  · split at heq
    · cases heq
    · cases heq
      refine normalizedSegs_addTextSegs _ _ h ?_
      next hne _ =>
        rw [Bool.eq_false_iff]
        intro hall
        exact hne ((jsTrim_eq_nil_iff _).mpr hall)
theorem normalizedSegs_handleClosingTag (st : ParseState) (n : JStr)
    (h : NormalizedSegs st.segments) :
    NormalizedSegs (handleClosingTag st n).segments := by
  unfold handleClosingTag
  split
  · split
    · exact normalizedSegs_pushEvent _ _ h
    · exact h
  · split
    · split
      · exact normalizedSegs_pushEvent _ _ h
      · exact h
    · exact h

theorem normalizedSegs_handleSelfClosingTag (st : ParseState) (n a : JStr)
    (h : NormalizedSegs st.segments) :
    NormalizedSegs (handleSelfClosingTag st n a).segments := by
  unfold handleSelfClosingTag
  split
  · exact normalizedSegs_pushEvent _ _ h
  · exact h

theorem normalizedSegs_handleOpeningTag (st : ParseState) (n a rest : JStr)
    (st' : ParseState) (r : Option JStr)
    (h : NormalizedSegs st.segments)
    (heq : handleOpeningTag st n a rest = .ok (st', r)) :
    NormalizedSegs st'.segments := by
  unfold handleOpeningTag at heq
  split at heq
  · cases heq
    exact normalizedSegs_pushEvent _ _ h
  · split at heq
    · split at heq
      · cases heq
        exact normalizedSegs_pushEvent _ _ h
      · cases heq
        exact h
    · split at heq
      · cases heq
        exact normalizedSegs_pushEvent _ _ h
      · split at heq
        · split at heq
          · split at heq
            · cases heq
              exact h
            · split at heq
              · split at heq
                · next heq2 =>
                  cases heq
                  exact normalizedSegs_addText _ _ _ h heq2
                · cases heq
              · cases heq
                exact h
          · cases heq
            exact h
        · cases heq
          exact h

theorem normalizedSegs_ssmlLoop (fuel : Nat) :
    ∀ (rest : JStr) (st st' : ParseState), NormalizedSegs st.segments →
      ssmlLoop fuel rest st = .ok st' → NormalizedSegs st'.segments := by
  induction fuel with
  | zero =>
    intro rest st st' _ heq
    cases heq
  | succ n ih =>
    intro rest st st' h heq
    unfold ssmlLoop at heq
    split at heq
    · split at heq
      · cases heq
        exact h
      · exact normalizedSegs_addText _ _ _ h heq
    · rename_i x pre tok rest2 hfind
      have hstep : ∀ st1 : ParseState,
          (if pre.isEmpty then (.ok st : Except JStr ParseState) else addText st pre) =
            .ok st1 → NormalizedSegs st1.segments := by
        intro st1 h1
        by_cases hp : pre.isEmpty
        · rw [if_pos hp] at h1; cases h1; exact h
        · rw [if_neg hp] at h1; exact normalizedSegs_addText _ _ _ h h1
      split at heq
      · cases heq
      · rename_i st1 hok
        have h1 := hstep st1 hok
        simp only at heq
        split at heq
        · cases heq
        · split at heq
          · refine ih rest2 _ st' ?_ heq
            exact h1
          · split at heq
            · refine ih rest2 _ st' ?_ heq
              exact h1
            · split at heq
              · refine ih rest2 _ st' ?_ heq
                exact normalizedSegs_handleClosingTag _ _ h1
              · split at heq
                · refine ih rest2 _ st' ?_ heq
                  exact normalizedSegs_handleSelfClosingTag _ _ _ h1
                · split at heq
                  · cases heq
                  · rename_i st3 newRest hop
                    refine ih newRest _ st' ?_ heq
                    refine normalizedSegs_handleOpeningTag _ _ _ _ _ _ ?_ hop
                    exact h1
                  · rename_i st3 hop
                    refine ih rest2 _ st' ?_ heq
                    refine normalizedSegs_handleOpeningTag _ _ _ _ _ _ ?_ hop
                    exact h1
theorem normalizedSegs_autoCloseAux (tags : List OpenTag) :
    ∀ st : ParseState, NormalizedSegs st.segments →
      NormalizedSegs (autoCloseAux tags st).segments := by
  induction tags with
  | nil => intro st h; exact h
  | cons t ts ih =>
    intro st h
    unfold autoCloseAux
    refine ih _ ?_
    exact normalizedSegs_pushEvent _ _ h

theorem normalizedSegs_doParse (input : JStr) (p : SpeechPlan)
    (heq : doParse input = .ok p) : NormalizedSegs p.segments := by
  unfold doParse at heq
  simp only at heq
  split at heq
  · cases heq
  · rename_i st hloop
    cases heq
    show NormalizedSegs (autoClose st).segments
    unfold autoClose
    exact normalizedSegs_autoCloseAux _ _
      (normalizedSegs_ssmlLoop _ _ _ _ normalizedSegs_nil hloop)

/-- C10: every plan returned by `parseSsmlLite` is normalized — no two
adjacent text segments, and every text segment contains at least one
non-whitespace character. -/
theorem parseSsmlLite_normalized (input : JStr) :
    NormalizedSegs (parseSsmlLite input).segments := by
  unfold parseSsmlLite
  simp only
  split
  · unfold plainTextPlan
    split
    · exact normalizedSegs_nil
    · next hne =>
      refine ⟨List.chain'_singleton _, ?_⟩
      intro v hv
      simp only [List.mem_singleton, PlanSegment.text.injEq] at hv
      subst hv
      exact jsTrim_all_ws_false input (by simpa using hne)
  · split
    · next p hp => exact normalizedSegs_doParse _ _ hp
    · next e he =>
      unfold plainTextFallback
      simp only
      split
      · exact normalizedSegs_nil
      · next hne =>
        refine ⟨List.chain'_singleton _, ?_⟩
        intro v hv
        simp only [List.mem_singleton, PlanSegment.text.injEq] at hv
        subst hv
        show (stripAllTags (jsTrim input)).all jsWs = false
        unfold stripAllTags
        refine jsTrim_all_ws_false _ ?_
        intro hnil
        refine hne ?_
        unfold stripAllTags
        simp [hnil]
/-! ## C8 — plainText vs. segments -/

/-- C8 counterexample: on the plain-text path `plainText` keeps the
input's internal whitespace, so it differs from the whitespace-collapsed
concatenation of the text segments. -/
theorem parseSsmlLite_plainText_counterexample :
    (parseSsmlLite (S "a  b")).plainText ≠
      extractPlainText (parseSsmlLite (S "a  b")).segments := by
  decide

/-- C8 as amended: on the SSML parse path `plainText` is exactly
`extractPlainText segments` (space-joined, whitespace-collapsed text
values); on every path the plan is either empty, a single text segment
whose value is `plainText` verbatim, or has
`plainText = extractPlainText segments`.  Event segments carry no text by
construction of `PlanSegment`. -/
theorem parseSsmlLite_plainText_rederivable (input : JStr) :
    (∀ p : SpeechPlan, looksLikeSsml (jsTrim input) = true →
      doParse (jsTrim input) = .ok p → p.plainText = extractPlainText p.segments) ∧
    ((parseSsmlLite input).plainText =
        extractPlainText (parseSsmlLite input).segments ∨
      ((parseSsmlLite input).segments = [] ∧ (parseSsmlLite input).plainText = []) ∨
      (parseSsmlLite input).segments = [.text (parseSsmlLite input).plainText]) := by
  have hok : ∀ p : SpeechPlan, doParse (jsTrim input) = .ok p →
      p.plainText = extractPlainText p.segments := by
    intro p heq
    unfold doParse at heq
    simp only at heq
    split at heq
    · cases heq
    · cases heq
      rfl
  refine ⟨fun p _ heq => hok p heq, ?_⟩
  unfold parseSsmlLite
  simp only
  split
  · unfold plainTextPlan
    split
    · right; left; exact ⟨rfl, rfl⟩
    · right; right; rfl
  · split
    · next p hp => left; exact hok p hp
    · unfold plainTextFallback
      simp only
      split
      · next hstr =>
        right; left
        refine ⟨rfl, ?_⟩
        simpa using hstr
      · right; right; rfl

/-- Witness for C8 (amended), applying the SSML-path conjunct at
`"<break/>"`. -/
theorem parseSsmlLite_plainText_rederivable_witness :
    (parseSsmlLite (S "<break/>")).plainText =
      extractPlainText (parseSsmlLite (S "<break/>")).segments :=
  (parseSsmlLite_plainText_rederivable (S "<break/>")).1
    (parseSsmlLite (S "<break/>")) (by decide) (by decide)
/-! ## C5 — orchestrator result invariants -/

theorem all_take_of_le_takeWhile (p : Char → Bool) :
    ∀ (t : JStr) (k : Nat), k ≤ (t.takeWhile p).length → (t.take k).all p = true := by
  intro t
  induction t with
  | nil =>
    intro k hk
    simp only [List.takeWhile_nil, List.length_nil, Nat.le_zero] at hk
    subst hk; rfl
  | cons c t ih =>
    intro k hk
    cases k with
    | zero => rfl
    | succ k =>
      rw [List.takeWhile_cons] at hk
      by_cases hc : p c = true
      · rw [if_pos hc] at hk
        simp only [List.length_cons, Nat.succ_le_succ_iff] at hk
        rw [List.take_succ_cons, List.all_cons, hc, Bool.true_and]
        exact ih k hk
      · rw [if_neg hc] at hk
        simp at hk

theorem splitParasAux_exists_nonws :
    ∀ (n : Nat) (s cur : JStr), s.length ≤ n →
      cur.all jsWs = false ∨ s.all jsWs = false →
      ∃ piece, piece ∈ splitParasAux n cur s ∧ piece.all jsWs = false := by
  intro n
  induction n with
  | zero =>
    intro s cur hn h
    have hs : s = [] := List.length_eq_zero.mp (Nat.le_zero.mp hn)
    subst hs
    unfold splitParasAux
    rcases h with h | h
    · exact ⟨cur.reverse, List.mem_singleton.mpr rfl, by rwa [List.all_reverse]⟩
    · simp at h
  | succ n ih =>
    intro s cur hn h
    cases s with
    | nil =>
      unfold splitParasAux
      rcases h with h | h
      · exact ⟨cur.reverse, List.mem_singleton.mpr rfl, by rwa [List.all_reverse]⟩
      · simp at h
    | cons c t =>
      simp only [List.length_cons] at hn
      by_cases hc : c = '\n'
      · unfold splitParasAux
        rw [if_pos hc]
        cases hidx : (t.takeWhile jsWs).reverse.findIdx? (· = '\n') with
        | some revIdx =>
          simp only [hidx]
          rcases h with h | h
          · exact ⟨cur.reverse, List.mem_cons_self _ _, by rwa [List.all_reverse]⟩
          · subst hc
            rw [List.all_cons, show jsWs '\n' = true by decide, Bool.true_and] at h
            have hrun : 1 ≤ (t.takeWhile jsWs).length := by
              by_contra hr
              have hnil : t.takeWhile jsWs = [] := by
                cases htw : t.takeWhile jsWs with
                | nil => rfl
                | cons a b => rw [htw, List.length_cons] at hr; omega
              rw [hnil] at hidx
              simp at hidx
            have hlast : (t.takeWhile jsWs).length - 1 - revIdx + 1 ≤
                (t.takeWhile jsWs).length := by omega
            have htake : (t.take ((t.takeWhile jsWs).length - 1 - revIdx + 1)).all jsWs =
                true := all_take_of_le_takeWhile jsWs t _ hlast
            have hdrop : (t.drop ((t.takeWhile jsWs).length - 1 - revIdx + 1)).all jsWs =
                false := by
              rw [← List.take_append_drop ((t.takeWhile jsWs).length - 1 - revIdx + 1) t,
                List.all_append, htake, Bool.true_and] at h
              exact h
            obtain ⟨piece, hmem, hpf⟩ :=
              ih (t.drop ((t.takeWhile jsWs).length - 1 - revIdx + 1)) []
                (by rw [List.length_drop]; omega) (Or.inr hdrop)
            exact ⟨piece, List.mem_cons_of_mem _ hmem, hpf⟩
        | none =>
          simp only [hidx]
          refine ih t (c :: cur) (by omega) ?_
          rcases h with h | h
          · left; rw [List.all_cons, h, Bool.and_false]
          · subst hc
            rw [List.all_cons, show jsWs '\n' = true by decide, Bool.true_and] at h
            exact Or.inr h
      · unfold splitParasAux
        rw [if_neg hc]
        refine ih t (c :: cur) (by omega) ?_
        rcases h with h | h
        · left; rw [List.all_cons, h, Bool.and_false]
        · rw [List.all_cons] at h
          cases hwc : jsWs c with
          | false => left; rw [List.all_cons, hwc, Bool.false_and]
          | true => rw [hwc, Bool.true_and] at h; exact Or.inr h

theorem splitAfterAux_exists_nonws (delims : List Char) :
    ∀ (n : Nat) (s : JStr) (prev : Option Char) (cur : JStr), s.length ≤ n →
      cur.all jsWs = false ∨ s.all jsWs = false →
      ∃ piece, piece ∈ splitAfterAux delims n prev cur s ∧ piece.all jsWs = false := by
  intro n
  induction n with
  | zero =>
    intro s prev cur hn h
    have hs : s = [] := List.length_eq_zero.mp (Nat.le_zero.mp hn)
    subst hs
    unfold splitAfterAux
    rcases h with h | h
    · exact ⟨cur.reverse, List.mem_singleton.mpr rfl, by rwa [List.all_reverse]⟩
    · simp at h
  | succ n ih =>
    intro s prev cur hn h
    cases s with
    | nil =>
      unfold splitAfterAux
      rcases h with h | h
      · exact ⟨cur.reverse, List.mem_singleton.mpr rfl, by rwa [List.all_reverse]⟩
      · simp at h
    | cons c t =>
      simp only [List.length_cons] at hn
      unfold splitAfterAux
      by_cases hcond : (jsWs c &&
          (match prev with | some d => delims.contains d | none => false)) = true
      · rw [if_pos hcond]
        rcases h with h | h
        · exact ⟨cur.reverse, List.mem_cons_self _ _, by rwa [List.all_reverse]⟩
        · have hwc : jsWs c = true := by
            have hcond2 := hcond
            rw [Bool.and_eq_true] at hcond2
            exact hcond2.1
          rw [List.all_cons, hwc, Bool.true_and] at h
          have htake : (t.take (t.takeWhile jsWs).length).all jsWs = true :=
            all_take_of_le_takeWhile jsWs t _ le_rfl
          have hdrop : (t.drop (t.takeWhile jsWs).length).all jsWs = false := by
            rw [← List.take_append_drop (t.takeWhile jsWs).length t,
              List.all_append, htake, Bool.true_and] at h
            exact h
          obtain ⟨piece, hmem, hpf⟩ :=
            ih (t.drop (t.takeWhile jsWs).length) _ []
              (by rw [List.length_drop]; omega) (Or.inr hdrop)
          exact ⟨piece, List.mem_cons_of_mem _ hmem, hpf⟩
      · rw [if_neg hcond]
        refine ih t (some c) (c :: cur) (by omega) ?_
        rcases h with h | h
        · left; rw [List.all_cons, h, Bool.and_false]
        · rw [List.all_cons] at h
          cases hwc : jsWs c with
          | false => left; rw [List.all_cons, hwc, Bool.false_and]
          | true => rw [hwc, Bool.true_and] at h; exact Or.inr h

theorem trimFilter_spec (l : List JStr) (piece : JStr) (hmem : piece ∈ l)
    (hp : piece.all jsWs = false) :
    ((l.map jsTrim).filter (· ≠ [])) ≠ [] ∧
    ∀ x ∈ (l.map jsTrim).filter (· ≠ []), x.all jsWs = false := by
  have htp : jsTrim piece ≠ [] := by
    intro he
    rw [jsTrim_eq_nil_iff] at he
    rw [he] at hp
    exact absurd hp (by decide)
  constructor
  · intro hnil
    have hmem2 : jsTrim piece ∈ (l.map jsTrim).filter (· ≠ []) := by
      rw [List.mem_filter]
      exact ⟨List.mem_map_of_mem _ hmem, by simpa⟩
    rw [hnil] at hmem2
    exact absurd hmem2 (List.not_mem_nil _)
  · intro x hx
    rcases List.mem_filter.mp hx with ⟨hx1, hx2⟩
    rcases List.mem_map.mp hx1 with ⟨p, _, rfl⟩
    exact jsTrim_all_ws_false p (by simpa using hx2)

theorem splitByParagraphs_spec (text : JStr) (h : text.all jsWs = false) :
    splitByParagraphs text ≠ [] ∧ ∀ x ∈ splitByParagraphs text, x.all jsWs = false := by
  obtain ⟨piece, hmem, hp⟩ :=
    splitParasAux_exists_nonws text.length text [] le_rfl (Or.inr h)
  unfold splitByParagraphs
  exact trimFilter_spec _ piece hmem hp

theorem splitBySentences_spec (text : JStr) (h : text.all jsWs = false) :
    splitBySentences text ≠ [] ∧ ∀ x ∈ splitBySentences text, x.all jsWs = false := by
  obtain ⟨piece, hmem, hp⟩ :=
    splitAfterAux_exists_nonws ['.', '!', '?'] text.length text none [] le_rfl (Or.inr h)
  unfold splitBySentences
  exact trimFilter_spec _ piece hmem hp

theorem splitByPunctuation_spec (text : JStr) (h : text.all jsWs = false) :
    splitByPunctuation text ≠ [] ∧ ∀ x ∈ splitByPunctuation text, x.all jsWs = false := by
  obtain ⟨piece, hmem, hp⟩ :=
    splitAfterAux_exists_nonws [',', ';', ':', '—'] text.length text none [] le_rfl (Or.inr h)
  unfold splitByPunctuation
  exact trimFilter_spec _ piece hmem hp

theorem hardSplitAux_ne_nil (limit fuel : Nat) (remaining : JStr) (h : remaining ≠ []) :
    hardSplitAux limit fuel remaining ≠ [] := by
  cases fuel with
  | zero => unfold hardSplitAux; simp
  | succ n =>
    unfold hardSplitAux
    by_cases hl : limit < remaining.length
    · rw [if_pos hl]; simp
    · rw [if_neg hl]
      have hie : remaining.isEmpty = false := by
        cases remaining with
        | nil => exact absurd rfl h
        | cons a b => rfl
      rw [if_neg (by simp [hie])]
      simp

theorem hardSplit_ne_nil (text : JStr) (maxChars : Option Nat) (h : text ≠ []) :
    hardSplit text maxChars ≠ [] := by
  unfold hardSplit
  exact hardSplitAux_ne_nil _ _ _ h

theorem refineSplits_ne_nil (chunks : List JStr) (mcc : Nat) (splitter : JStr → List JStr)
    (hne : chunks ≠ []) (hsp : ∀ c ∈ chunks, ¬ c.length ≤ mcc → splitter c ≠ []) :
    refineSplits chunks mcc splitter ≠ [] := by
  rcases List.exists_cons_of_ne_nil hne with ⟨c, rest, rfl⟩
  unfold refineSplits
  rw [List.map_cons, List.flatten_cons]
  by_cases hc : c.length ≤ mcc
  · rw [if_pos hc]; simp
  · rw [if_neg hc]
    intro he
    rcases List.append_eq_nil.mp he with ⟨h1, _⟩
    exact hsp c (List.mem_cons_self _ _) hc h1

theorem refineSplits_all (chunks : List JStr) (mcc : Nat) (splitter : JStr → List JStr)
    (hall : ∀ c ∈ chunks, c.all jsWs = false)
    (hsp : ∀ c ∈ chunks, ¬ c.length ≤ mcc → ∀ x ∈ splitter c, x.all jsWs = false) :
    ∀ x ∈ refineSplits chunks mcc splitter, x.all jsWs = false := by
  intro x hx
  unfold refineSplits at hx
  rcases List.mem_flatten.mp hx with ⟨l, hl, hxl⟩
  rcases List.mem_map.mp hl with ⟨c, hc, rfl⟩
  by_cases hlen : c.length ≤ mcc
  · rw [if_pos hlen, List.mem_singleton] at hxl
    rw [hxl]
    exact hall c hc
  · rw [if_neg hlen] at hxl
    exact hsp c hc hlen x hxl

theorem mergeTinyGo_ne_nil (mi ma : Nat) :
    ∀ (rest : List JStr) (last : JStr), mergeTinyGo mi ma last rest ≠ [] := by
  intro rest
  induction rest with
  | nil => intro last; unfold mergeTinyGo; simp
  | cons cur r ih =>
    intro last
    unfold mergeTinyGo
    by_cases hc : cur.length < mi ∧ last.length + cur.length + 1 ≤ ma
    · rw [if_pos hc]; exact ih _
    · rw [if_neg hc]; simp

theorem chunkCascade_ne_nil (mcc minc : Nat) {input : JStr} (h : input.all jsWs = false) :
    mergeTiny (refineSplits (refineSplits (refineSplits (splitByParagraphs input) mcc
      splitBySentences) mcc splitByPunctuation) mcc (fun c => hardSplit c (some mcc)))
      minc mcc ≠ [] := by
  obtain ⟨h1ne, h1all⟩ := splitByParagraphs_spec input h
  have h2ne := refineSplits_ne_nil _ mcc _ h1ne
    (fun c hc _ => (splitBySentences_spec c (h1all c hc)).1)
  have h2all := refineSplits_all _ mcc _ h1all
    (fun c hc _ => (splitBySentences_spec c (h1all c hc)).2)
  have h3ne := refineSplits_ne_nil _ mcc _ h2ne
    (fun c hc _ => (splitByPunctuation_spec c (h2all c hc)).1)
  have h3all := refineSplits_all _ mcc _ h2all
    (fun c hc _ => (splitByPunctuation_spec c (h2all c hc)).2)
  have h4ne := refineSplits_ne_nil _ mcc _ h3ne
    (fun c _ hlen => hardSplit_ne_nil c (some mcc)
      (by intro he; apply hlen; rw [he]; simp))
  rcases List.exists_cons_of_ne_nil h4ne with ⟨c0, r0, he⟩
  rw [he]
  simp only [mergeTiny]
  exact mergeTinyGo_ne_nil _ _ r0 c0

theorem truncateAtBoundary_trim (text : JStr) (maxChars : Nat)
    (h : maxChars < text.length) : ∃ u, truncateAtBoundary text maxChars = jsTrim u := by
  simp only [truncateAtBoundary]
  rw [if_neg (by omega)]
  cases hse : maxOptIdx [lastIndexOfSub (text.take maxChars) ['.', ' '],
      lastIndexOfSub (text.take maxChars) ['!', ' '],
      lastIndexOfSub (text.take maxChars) ['?', ' ']] with
  | none =>
    dsimp only
    cases hw : lastIndexOfSub (text.take maxChars) [' '] with
    | none => exact ⟨_, rfl⟩
    | some w =>
      dsimp only
      by_cases hww : maxChars < 2 * w
      · rw [if_pos hww]; exact ⟨_, rfl⟩
      · rw [if_neg hww]; exact ⟨_, rfl⟩
  | some i =>
    dsimp only
    by_cases hi : maxChars < 2 * i
    · rw [if_pos hi]; exact ⟨_, rfl⟩
    · rw [if_neg hi]
      cases hw : lastIndexOfSub (text.take maxChars) [' '] with
      | none => exact ⟨_, rfl⟩
      | some w =>
        dsimp only
        by_cases hww : maxChars < 2 * w
        · rw [if_pos hww]; exact ⟨_, rfl⟩
        · rw [if_neg hww]; exact ⟨_, rfl⟩

theorem chunkText_ne_nil (text : JStr) (options : ChunkingOptions)
    (ht : jsTrim text ≠ [])
    (hm : 1 ≤ options.maxChunks.getD CHUNK_LIMITS.maxChunks) :
    (chunkText text options).chunks ≠ [] := by
  simp only [chunkText]
  split
  · next h0 => exact absurd h0 ht
  · next h0 =>
    by_cases htr : options.maxTotalChars.getD CHUNK_LIMITS.maxTotalChars <
        (jsTrim text).length
    · rw [if_pos (decide_eq_true htr)]
      obtain ⟨u, hu⟩ := truncateAtBoundary_trim (jsTrim text) _ htr
      rw [hu]
      split
      · next => simp
      · next h2 =>
        have hne : jsTrim u ≠ [] := by
          intro he
          rw [he] at h2
          exact h2 (by simp)
        have hall := jsTrim_all_ws_false u hne
        dsimp only
        split
        · next hov =>
          rcases List.exists_cons_of_ne_nil (chunkCascade_ne_nil
              (options.maxChunkChars.getD CHUNK_LIMITS.maxChunkChars)
              (options.minChunkChars.getD CHUNK_LIMITS.minChunkChars) hall)
            with ⟨x, xs, hxe⟩
          rw [hxe]
          cases hmx : options.maxChunks.getD CHUNK_LIMITS.maxChunks with
          | zero => omega
          | succ k => simp
        · next => exact chunkCascade_ne_nil _ _ hall
    · rw [if_neg (show ¬(decide (options.maxTotalChars.getD CHUNK_LIMITS.maxTotalChars <
          (jsTrim text).length) = true) from by simpa using htr)]
      split
      · next => simp
      · next h2 =>
        have hall := jsTrim_all_ws_false text ht
        dsimp only
        split
        · next hov =>
          rcases List.exists_cons_of_ne_nil (chunkCascade_ne_nil
              (options.maxChunkChars.getD CHUNK_LIMITS.maxChunkChars)
              (options.minChunkChars.getD CHUNK_LIMITS.minChunkChars) hall)
            with ⟨x, xs, hxe⟩
          rw [hxe]
          cases hmx : options.maxChunks.getD CHUNK_LIMITS.maxChunks with
          | zero => omega
          | succ k => simp
        · next => exact chunkCascade_ne_nil _ _ hall
theorem runPlanChunksLoop_intr_lt (synthesize : JStr → Nat → ChunkArtifact)
    (options : RunPlanOptions) (total : Nat) :
    ∀ (l : List JStr) (i : Nat),
      (runPlanChunksLoop synthesize options total i l).2.1 = true →
      (runPlanChunksLoop synthesize options total i l).1.length < l.length := by
  intro l
  induction l with
  | nil =>
    intro i h
    simp [runPlanChunksLoop] at h
  | cons chunk rest ih =>
    intro i h
    cases hp : pollAborted options i with
    | true =>
      rw [runPlanChunksLoop, if_pos hp]
      simp
    | false =>
      rcases hrec : runPlanChunksLoop synthesize options total (i + 1) rest
        with ⟨arts, intr, ws⟩
      rw [runPlanChunksLoop, if_neg (by simp [hp]), hrec] at h ⊢
      have hlt := ih (i + 1)
      rw [hrec] at hlt
      have hlt2 := hlt h
      simp only [List.length_cons] at hlt2 ⊢
      omega

theorem runEmotionChunksLoop_len_le
    (synthesize : JStr → Nat → EmotionSynthesisContext → ChunkArtifact)
    (options : RunPlanOptions) (ctx : EmotionSynthesisContext) :
    ∀ (l : List JStr) (g p : Nat),
      (runEmotionChunksLoop synthesize options ctx g p l).1.length ≤ l.length := by
  intro l
  induction l with
  | nil =>
    intro g p
    simp [runEmotionChunksLoop]
  | cons chunk rest ih =>
    intro g p
    cases hp : pollAborted options p with
    | true =>
      rw [runEmotionChunksLoop, if_pos hp]
      simp
    | false =>
      rcases hrec : runEmotionChunksLoop synthesize options ctx (g + 1) (p + 1) rest
        with ⟨arts, ws, intr, g2, p2⟩
      rw [runEmotionChunksLoop, if_neg (by simp [hp]), hrec]
      have hle := ih (g + 1) (p + 1)
      rw [hrec] at hle
      simp only [List.length_cons] at hle ⊢
      omega

theorem runEmotionChunksLoop_intr_lt
    (synthesize : JStr → Nat → EmotionSynthesisContext → ChunkArtifact)
    (options : RunPlanOptions) (ctx : EmotionSynthesisContext) :
    ∀ (l : List JStr) (g p : Nat),
      (runEmotionChunksLoop synthesize options ctx g p l).2.2.1 = true →
      (runEmotionChunksLoop synthesize options ctx g p l).1.length < l.length := by
  intro l
  induction l with
  | nil =>
    intro g p h
    simp [runEmotionChunksLoop] at h
  | cons chunk rest ih =>
    intro g p h
    cases hp : pollAborted options p with
    | true =>
      rw [runEmotionChunksLoop, if_pos hp]
      simp
    | false =>
      rcases hrec : runEmotionChunksLoop synthesize options ctx (g + 1) (p + 1) rest
        with ⟨arts, ws, intr, g2, p2⟩
      rw [runEmotionChunksLoop, if_neg (by simp [hp]), hrec] at h ⊢
      have hlt := ih (g + 1) (p + 1)
      rw [hrec] at hlt
      have hlt2 := hlt h
      simp only [List.length_cons] at hlt2 ⊢
      omega

theorem runEmotionSpansLoop_intr_lt
    (synthesize : JStr → Nat → EmotionSynthesisContext → ChunkArtifact)
    (options : RunPlanOptions) (chunkingOptions : ChunkingOptions) (totalSpans : Nat) :
    ∀ (spans : List EmotionSpan) (spanIdx g p : Nat),
      (∀ sp ∈ spans, (chunkText sp.text chunkingOptions).chunks ≠ []) →
      (runEmotionSpansLoop synthesize options chunkingOptions totalSpans
        spanIdx g p spans).2.2 = true →
      (runEmotionSpansLoop synthesize options chunkingOptions totalSpans
        spanIdx g p spans).1.length <
      (spans.map (fun sp => (chunkText sp.text chunkingOptions).chunks.length)).sum := by
  intro spans
  induction spans with
  | nil =>
    intro spanIdx g p hne h
    simp [runEmotionSpansLoop] at h
  | cons span rest ih =>
    intro spanIdx g p hne h
    have hhead : (chunkText span.text chunkingOptions).chunks ≠ [] :=
      hne span (List.mem_cons_self _ _)
    have hhead1 : 1 ≤ (chunkText span.text chunkingOptions).chunks.length := by
      cases hcc : (chunkText span.text chunkingOptions).chunks with
      | nil => exact absurd hcc hhead
      | cons a b => simp
    cases hp : pollAborted options p with
    | true =>
      rw [runEmotionSpansLoop, if_pos hp]
      simp only [List.map_cons, List.sum_cons, List.length_nil]
      omega
    | false =>
      rcases hrec : runEmotionChunksLoop synthesize options
          ⟨span.emotion, span.voiceId, span.speed, spanIdx⟩ g (p + 1)
          (chunkText span.text chunkingOptions).chunks
        with ⟨arts, ws1, intr, g2, p2⟩
      rw [runEmotionSpansLoop, if_neg (by simp [hp])] at h ⊢
      simp only at h ⊢
      rw [hrec] at h ⊢
      have hlenle := runEmotionChunksLoop_len_le synthesize options
        ⟨span.emotion, span.voiceId, span.speed, spanIdx⟩
        (chunkText span.text chunkingOptions).chunks g (p + 1)
      have hlenlt := runEmotionChunksLoop_intr_lt synthesize options
        ⟨span.emotion, span.voiceId, span.speed, spanIdx⟩
        (chunkText span.text chunkingOptions).chunks g (p + 1)
      rw [hrec] at hlenle hlenlt
      cases hintr : intr with
      | true =>
        have hlt := hlenlt hintr
        simp only at hlt
        simp
        omega
      | false =>
        rw [hintr] at h
        rcases hrec2 : runEmotionSpansLoop synthesize options chunkingOptions totalSpans
            (spanIdx + 1) g2 p2 rest with ⟨arts2, ws2, intr2⟩
        rw [hrec2] at h
        simp at h ⊢
        have hih := ih (spanIdx + 1) g2 p2
          (fun sp hsp => hne sp (List.mem_cons_of_mem _ hsp))
        rw [hrec2] at hih
        have hih2 := hih h
        simp only at hih2 hlenle
        omega

theorem emoLoop_span_trim :
    ∀ (fuel : Nat) (rest : JStr) (spans : List EmotionSpan)
      (warnings : List EmotionWarning),
      (∀ sp ∈ spans, jsTrim sp.text ≠ []) →
      ∀ sp ∈ (emoLoop fuel rest spans warnings).1, jsTrim sp.text ≠ [] := by
  intro fuel
  induction fuel with
  | zero =>
    intro rest spans warnings h sp hsp
    exact h sp hsp
  | succ n ih =>
    intro rest spans warnings h sp hsp
    rw [emoLoop] at hsp
    cases hfind : emoFind rest with
    | none =>
      rw [hfind] at hsp
      by_cases htail : (jsTrim rest).isEmpty = true
      · rw [if_pos htail] at hsp
        exact h sp hsp
      · rw [if_neg htail] at hsp
        unfold pushNeutralSpan at hsp
        rcases List.mem_append.mp hsp with hsp | hsp
        · exact h sp hsp
        · rw [List.mem_singleton] at hsp
          subst hsp
          exact jsTrim_trim_ne_nil (by simpa [List.isEmpty_iff] using htail)
    | some m =>
      rcases m with ⟨pre, openName, innerText, closeName, rest2⟩
      rw [hfind] at hsp
      simp only at hsp
      have hs1 : ∀ sp2 ∈ (if (jsTrim pre).isEmpty = true then spans
          else pushNeutralSpan spans (jsTrim pre)), jsTrim sp2.text ≠ [] := by
        intro sp2 hsp2
        by_cases hpre : (jsTrim pre).isEmpty = true
        · rw [if_pos hpre] at hsp2
          exact h sp2 hsp2
        · rw [if_neg hpre] at hsp2
          unfold pushNeutralSpan at hsp2
          rcases List.mem_append.mp hsp2 with hsp2 | hsp2
          · exact h sp2 hsp2
          · rw [List.mem_singleton] at hsp2
            subst hsp2
            exact jsTrim_trim_ne_nil (by simpa [List.isEmpty_iff] using hpre)
      by_cases hne : openName ≠ closeName
      · rw [if_pos hne] at hsp
        refine ih rest2 _ _ ?_ sp hsp
        intro sp2 hsp2
        unfold pushNeutralSpan at hsp2
        rcases List.mem_append.mp hsp2 with hsp2 | hsp2
        · exact hs1 sp2 hsp2
        · rw [List.mem_singleton] at hsp2
          subst hsp2
          exact jsTrim_ne_nil_of_not_ws (List.mem_cons_self _ _) (by decide)
      · rw [if_neg hne] at hsp
        by_cases htr : (jsTrim innerText).isEmpty = true
        · rw [if_pos htr] at hsp
          exact ih rest2 _ _ hs1 sp hsp
        · rw [if_neg htr] at hsp
          have htrne : jsTrim (jsTrim innerText) ≠ [] :=
            jsTrim_trim_ne_nil (by simpa [List.isEmpty_iff] using htr)
          by_cases hkn : EMOTION_NAMES.contains openName = true
          · rw [if_pos hkn] at hsp
            refine ih rest2 _ _ ?_ sp hsp
            intro sp2 hsp2
            rcases List.mem_append.mp hsp2 with hsp2 | hsp2
            · exact hs1 sp2 hsp2
            · rw [List.mem_singleton] at hsp2
              subst hsp2
              exact htrne
          · rw [if_neg hkn] at hsp
            refine ih rest2 _ _ ?_ sp hsp
            intro sp2 hsp2
            rcases List.mem_append.mp hsp2 with hsp2 | hsp2
            · exact hs1 sp2 hsp2
            · rw [List.mem_singleton] at hsp2
              subst hsp2
              exact htrne

theorem parseEmotionSpans_span_trim (text : JStr) :
    ∀ sp ∈ (parseEmotionSpans text).spans, jsTrim sp.text ≠ [] := by
  intro sp hsp
  unfold parseEmotionSpans at hsp
  cases hfind : emoFind text with
  | none =>
    rw [hfind] at hsp
    by_cases hte : (jsTrim text).isEmpty = true
    · rw [if_pos hte] at hsp
      simp at hsp
    · rw [if_neg hte] at hsp
      simp only at hsp
      unfold pushNeutralSpan at hsp
      rcases List.mem_append.mp hsp with hsp | hsp
      · simp at hsp
      · rw [List.mem_singleton] at hsp
        subst hsp
        exact jsTrim_trim_ne_nil (by simpa [List.isEmpty_iff] using hte)
  | some m =>
    rw [hfind] at hsp
    rcases hloop : emoLoop (text.length + 1) text [] [] with ⟨sps, ws⟩
    rw [hloop] at hsp
    simp only at hsp
    have hall := emoLoop_span_trim (text.length + 1) text [] []
      (by intro sp2 hsp2; simp at hsp2)
    rw [hloop] at hall
    exact hall sp hsp
theorem runPlan_shape (plan : SpeechPlan) (synthesize : JStr → Nat → ChunkArtifact)
    (options : RunPlanOptions) (chunkingOptions : ChunkingOptions)
    (concatB64 : List ChunkArtifact → Except JStr (JStr × ℚ))
    (concatFiles : List ChunkArtifact → JStr → Except JStr (JStr × ℚ))
    (r : SpeechResult)
    (hr : runPlan plan synthesize options chunkingOptions concatB64 concatFiles = r) :
    ((r.concatPath.isSome = true ∨ r.concatBase64.isSome = true) →
        options.concat = true ∧ 1 < r.chunks.length ∧ r.interrupted = false) ∧
    (r.interrupted = true →
        r.chunks.length < (chunkText plan.plainText chunkingOptions).chunks.length) ∧
    (∀ e, options.concat = true → 1 < r.chunks.length → r.interrupted = false →
        options.artifactMode = .base64 → concatB64 r.chunks = .error e →
        r.concatPath = none ∧ r.concatBase64 = none ∧
        (⟨"CONCAT_FAILED", S "WAV concatenation failed: " ++ e⟩ : OrchWarning) ∈
          r.warnings) ∧
    (∀ e dir, options.concat = true → 1 < r.chunks.length → r.interrupted = false →
        options.artifactMode = .path → options.outputDir = some dir →
        concatFiles r.chunks dir = .error e →
        r.concatPath = none ∧ r.concatBase64 = none ∧
        (⟨"CONCAT_FAILED", S "WAV concatenation failed: " ++ e⟩ : OrchWarning) ∈
          r.warnings) := by
  simp only [runPlan] at hr
  split at hr
  · subst hr
    exact ⟨by simp, by simp, by simp, by simp⟩
  · split at hr
    · subst hr
      exact ⟨by simp, by simp, by simp, by simp⟩
    · split at hr
      · rename_i hc
        split at hr
        · rename_i xm hmode
          split at hr
          · rename_i xc b64 dur heqc
            subst hr
            dsimp only
            refine ⟨?_, ?_, ?_, ?_⟩
            · intro _
              exact ⟨hc.1, hc.2.1, by simpa using hc.2.2⟩
            · intro hi
              exact absurd hi hc.2.2
            · intro e _ _ _ _ herr
              rw [heqc] at herr
              cases herr
            · intro e dir _ _ _ heqm2 _ _
              rw [hmode] at heqm2
              cases heqm2
          · rename_i xc e2 heqc
            subst hr
            dsimp only
            refine ⟨?_, ?_, ?_, ?_⟩
            · intro hor
              simp at hor
            · intro hi
              exact absurd hi hc.2.2
            · intro e _ _ _ _ herr
              rw [heqc] at herr
              injection herr with he
              subst he
              exact ⟨rfl, rfl, by simp⟩
            · intro e dir _ _ _ heqm2 _ _
              rw [hmode] at heqm2
              cases heqm2
        · rename_i xm hmode
          split at hr
          · rename_i xd dir2 heqd
            split at hr
            · rename_i xc pth dur heqc
              subst hr
              dsimp only
              refine ⟨?_, ?_, ?_, ?_⟩
              · intro _
                exact ⟨hc.1, hc.2.1, by simpa using hc.2.2⟩
              · intro hi
                exact absurd hi hc.2.2
              · intro e _ _ _ heqm2 _
                rw [hmode] at heqm2
                cases heqm2
              · intro e dir _ _ _ _ heqd2 herr
                rw [heqd] at heqd2
                injection heqd2 with hd
                subst hd
                rw [heqc] at herr
                cases herr
            · rename_i xc e2 heqc
              subst hr
              dsimp only
              refine ⟨?_, ?_, ?_, ?_⟩
              · intro hor
                simp at hor
              · intro hi
                exact absurd hi hc.2.2
              · intro e _ _ _ heqm2 _
                rw [hmode] at heqm2
                cases heqm2
              · intro e dir _ _ _ _ heqd2 herr
                rw [heqd] at heqd2
                injection heqd2 with hd
                subst hd
                rw [heqc] at herr
                injection herr with he
                subst he
                exact ⟨rfl, rfl, by simp⟩
          · rename_i xd heqd
            subst hr
            dsimp only
            refine ⟨?_, ?_, ?_, ?_⟩
            · intro hor
              simp at hor
            · intro hi
              exact absurd hi hc.2.2
            · intro e _ _ _ heqm2 _
              rw [hmode] at heqm2
              cases heqm2
            · intro e dir _ _ _ _ heqd2 _
              rw [heqd] at heqd2
              cases heqd2
      · rename_i hc
        subst hr
        dsimp only
        have hlt := runPlanChunksLoop_intr_lt synthesize options
          (chunkText plan.plainText chunkingOptions).chunks.length
          (chunkText plan.plainText chunkingOptions).chunks 0
        refine ⟨?_, ?_, ?_, ?_⟩
        · intro hor
          simp at hor
        · intro hi
          exact hlt hi
        · intro e hcat hlen hint _ _
          exact absurd ⟨hcat, hlen, by simp [hint]⟩ hc
        · intro e dir hcat hlen hint _ _ _
          exact absurd ⟨hcat, hlen, by simp [hint]⟩ hc
theorem runEmotionPlan_shape (text : JStr)
    (synthesize : JStr → Nat → EmotionSynthesisContext → ChunkArtifact)
    (options : RunPlanOptions) (chunkingOptions : ChunkingOptions)
    (concatB64 : List ChunkArtifact → Except JStr (JStr × ℚ))
    (concatFiles : List ChunkArtifact → JStr → Except JStr (JStr × ℚ))
    (r : SpeechResult)
    (hr : runEmotionPlan text synthesize options chunkingOptions concatB64 concatFiles = r) :
    ((r.concatPath.isSome = true ∨ r.concatBase64.isSome = true) →
        options.concat = true ∧ 1 < r.chunks.length ∧ r.interrupted = false) ∧
    (1 ≤ chunkingOptions.maxChunks.getD CHUNK_LIMITS.maxChunks →
        r.interrupted = true →
        r.chunks.length < emotionPlannedChunks text chunkingOptions) ∧
    (∀ e, options.concat = true → 1 < r.chunks.length → r.interrupted = false →
        options.artifactMode = .base64 → concatB64 r.chunks = .error e →
        r.concatPath = none ∧ r.concatBase64 = none ∧
        (⟨"CONCAT_FAILED", S "WAV concatenation failed: " ++ e⟩ : OrchWarning) ∈
          r.warnings) ∧
    (∀ e dir, options.concat = true → 1 < r.chunks.length → r.interrupted = false →
        options.artifactMode = .path → options.outputDir = some dir →
        concatFiles r.chunks dir = .error e →
        r.concatPath = none ∧ r.concatBase64 = none ∧
        (⟨"CONCAT_FAILED", S "WAV concatenation failed: " ++ e⟩ : OrchWarning) ∈
          r.warnings) := by
  simp only [runEmotionPlan] at hr
  split at hr
  · subst hr
    exact ⟨by simp, by simp, by simp, by simp⟩
  · split at hr
    · rename_i hc
      split at hr
      · rename_i xm hmode
        split at hr
        · rename_i xc b64 dur heqc
          subst hr
          dsimp only
          refine ⟨?_, ?_, ?_, ?_⟩
          · intro _
            exact ⟨hc.1, hc.2.1, by simpa using hc.2.2⟩
          · intro _ hi
            exact absurd hi hc.2.2
          · intro e _ _ _ _ herr
            rw [heqc] at herr
            cases herr
          · intro e dir _ _ _ heqm2 _ _
            rw [hmode] at heqm2
            cases heqm2
        · rename_i xc e2 heqc
          subst hr
          dsimp only
          refine ⟨?_, ?_, ?_, ?_⟩
          · intro hor
            simp at hor
          · intro _ hi
            exact absurd hi hc.2.2
          · intro e _ _ _ _ herr
            rw [heqc] at herr
            injection herr with he
            subst he
            exact ⟨rfl, rfl, by simp⟩
          · intro e dir _ _ _ heqm2 _ _
            rw [hmode] at heqm2
            cases heqm2
      · rename_i xm hmode
        split at hr
        · rename_i xd dir2 heqd
          split at hr
          · rename_i xc pth dur heqc
            subst hr
            dsimp only
            refine ⟨?_, ?_, ?_, ?_⟩
            · intro _
              exact ⟨hc.1, hc.2.1, by simpa using hc.2.2⟩
            · intro _ hi
              exact absurd hi hc.2.2
            · intro e _ _ _ heqm2 _
              rw [hmode] at heqm2
              cases heqm2
            · intro e dir _ _ _ _ heqd2 herr
              rw [heqd] at heqd2
              injection heqd2 with hd
              subst hd
              rw [heqc] at herr
              cases herr
          · rename_i xc e2 heqc
            subst hr
            dsimp only
            refine ⟨?_, ?_, ?_, ?_⟩
            · intro hor
              simp at hor
            · intro _ hi
              exact absurd hi hc.2.2
            · intro e _ _ _ heqm2 _
              rw [hmode] at heqm2
              cases heqm2
            · intro e dir _ _ _ _ heqd2 herr
              rw [heqd] at heqd2
              injection heqd2 with hd
              subst hd
              rw [heqc] at herr
              injection herr with he
              subst he
              exact ⟨rfl, rfl, by simp⟩
        · rename_i xd heqd
          subst hr
          dsimp only
          refine ⟨?_, ?_, ?_, ?_⟩
          · intro hor
            simp at hor
          · intro _ hi
            exact absurd hi hc.2.2
          · intro e _ _ _ heqm2 _
            rw [hmode] at heqm2
            cases heqm2
          · intro e dir _ _ _ _ heqd2 _
            rw [heqd] at heqd2
            cases heqd2
    · rename_i hc
      subst hr
      dsimp only
      refine ⟨?_, ?_, ?_, ?_⟩
      · intro hor
        simp at hor
      · intro hm hi
        have hlt := runEmotionSpansLoop_intr_lt synthesize options chunkingOptions
          (parseEmotionSpans text).spans.length (parseEmotionSpans text).spans 0 0 0
          (fun sp hsp => chunkText_ne_nil sp.text chunkingOptions
            (parseEmotionSpans_span_trim text sp hsp) hm)
        exact hlt hi
      · intro e hcat hlen hint _ _
        exact absurd ⟨hcat, hlen, by simp [hint]⟩ hc
      · intro e dir hcat hlen hint _ _ _
        exact absurd ⟨hcat, hlen, by simp [hint]⟩ hc
/-- C5: for every `SpeechResult` returned by `runPlan` or `runEmotionPlan`, a
concat field (`concatPath` / `concatBase64`) is present only when concatenation
was requested, more than one chunk artifact was produced, and `interrupted` is
false; a concatenation failure sets no concat field, keeps the per-chunk
artifacts in `chunks`, and surfaces as a `CONCAT_FAILED` warning rather than a
thrown error; and `interrupted = true` implies strictly fewer returned chunk
artifacts than planned chunks — unconditionally for `runPlan`, and for
`runEmotionPlan` under an effective `maxChunks` of at least 1. -/
theorem run_result_invariants :
    (∀ (plan : SpeechPlan) (synthesize : JStr → Nat → ChunkArtifact)
        (options : RunPlanOptions) (chunkingOptions : ChunkingOptions)
        (concatB64 : List ChunkArtifact → Except JStr (JStr × ℚ))
        (concatFiles : List ChunkArtifact → JStr → Except JStr (JStr × ℚ))
        (r : SpeechResult),
      runPlan plan synthesize options chunkingOptions concatB64 concatFiles = r →
      ((r.concatPath.isSome = true ∨ r.concatBase64.isSome = true) →
          options.concat = true ∧ 1 < r.chunks.length ∧ r.interrupted = false) ∧
      (r.interrupted = true →
          r.chunks.length < (chunkText plan.plainText chunkingOptions).chunks.length) ∧
      (∀ e, options.concat = true → 1 < r.chunks.length → r.interrupted = false →
          options.artifactMode = .base64 → concatB64 r.chunks = .error e →
          r.concatPath = none ∧ r.concatBase64 = none ∧
          (⟨"CONCAT_FAILED", S "WAV concatenation failed: " ++ e⟩ : OrchWarning) ∈
            r.warnings) ∧
      (∀ e dir, options.concat = true → 1 < r.chunks.length → r.interrupted = false →
          options.artifactMode = .path → options.outputDir = some dir →
          concatFiles r.chunks dir = .error e →
          r.concatPath = none ∧ r.concatBase64 = none ∧
          (⟨"CONCAT_FAILED", S "WAV concatenation failed: " ++ e⟩ : OrchWarning) ∈
            r.warnings)) ∧
    (∀ (text : JStr) (synthesize : JStr → Nat → EmotionSynthesisContext → ChunkArtifact)
        (options : RunPlanOptions) (chunkingOptions : ChunkingOptions)
        (concatB64 : List ChunkArtifact → Except JStr (JStr × ℚ))
        (concatFiles : List ChunkArtifact → JStr → Except JStr (JStr × ℚ))
        (r : SpeechResult),
      runEmotionPlan text synthesize options chunkingOptions concatB64 concatFiles = r →
      ((r.concatPath.isSome = true ∨ r.concatBase64.isSome = true) →
          options.concat = true ∧ 1 < r.chunks.length ∧ r.interrupted = false) ∧
      (1 ≤ chunkingOptions.maxChunks.getD CHUNK_LIMITS.maxChunks →
          r.interrupted = true →
          r.chunks.length < emotionPlannedChunks text chunkingOptions) ∧
      (∀ e, options.concat = true → 1 < r.chunks.length → r.interrupted = false →
          options.artifactMode = .base64 → concatB64 r.chunks = .error e →
          r.concatPath = none ∧ r.concatBase64 = none ∧
          (⟨"CONCAT_FAILED", S "WAV concatenation failed: " ++ e⟩ : OrchWarning) ∈
            r.warnings) ∧
      (∀ e dir, options.concat = true → 1 < r.chunks.length → r.interrupted = false →
          options.artifactMode = .path → options.outputDir = some dir →
          concatFiles r.chunks dir = .error e →
          r.concatPath = none ∧ r.concatBase64 = none ∧
          (⟨"CONCAT_FAILED", S "WAV concatenation failed: " ++ e⟩ : OrchWarning) ∈
            r.warnings)) :=
  ⟨fun plan synthesize options chunkingOptions concatB64 concatFiles r hr =>
      runPlan_shape plan synthesize options chunkingOptions concatB64 concatFiles r hr,
    fun text synthesize options chunkingOptions concatB64 concatFiles r hr =>
      runEmotionPlan_shape text synthesize options chunkingOptions concatB64
        concatFiles r hr⟩

/-- C5 counterexample: with chunking overrides `maxChunkChars = 1` and
`maxChunks = 0`, every span of `"ab"` plans 0 chunks, so an abort during the
span loop yields `interrupted = true` with 0 artifacts — not strictly fewer
than the 0 planned chunks. -/
theorem runEmotionPlan_interrupted_counterexample :
    (runEmotionPlan (S "ab") (fun _ _ _ => ⟨none, none, 0, 0, S "wav"⟩)
        ⟨false, .path, none, some (fun _ => true)⟩ ⟨some 1, some 0, none, some 0⟩
        (fun _ => .error []) (fun _ _ => .error [])).interrupted = true ∧
    ¬ ((runEmotionPlan (S "ab") (fun _ _ _ => ⟨none, none, 0, 0, S "wav"⟩)
        ⟨false, .path, none, some (fun _ => true)⟩ ⟨some 1, some 0, none, some 0⟩
        (fun _ => .error []) (fun _ _ => .error [])).chunks.length <
      emotionPlannedChunks (S "ab") ⟨some 1, some 0, none, some 0⟩) := by
  constructor
  · decide
  · decide

theorem run_result_invariants_witness :
    (runEmotionPlan (S "hello") (fun _ _ _ => ⟨none, none, 0, 0, S "wav"⟩)
        ⟨false, .path, none, some (fun _ => true)⟩ ⟨none, none, none, none⟩
        (fun _ => .error []) (fun _ _ => .error [])).chunks.length <
      emotionPlannedChunks (S "hello") ⟨none, none, none, none⟩ :=
  (run_result_invariants.2 (S "hello") (fun _ _ _ => ⟨none, none, 0, 0, S "wav"⟩)
      ⟨false, .path, none, some (fun _ => true)⟩ ⟨none, none, none, none⟩
      (fun _ => .error []) (fun _ _ => .error []) _ rfl).2.1
    (by decide) (by decide)
